import Mathlib

/-!
Verification development for the bank-statement cleanup pipeline
(`scripts/cleanup.py`).  The per-column normalizers (`standardize_date`,
`clean_description`, `clean_amount`, `clean_category`) and the
reconciliation stages of `load_and_clean` / `monthly_summary` are embedded
shallowly: strings are Lean `String`s, missing values (`NaN`/`NaT`) are
`Option.none`, floating-point numbers are modelled as exact rationals, and
library calls (difflib, pandas, numpy, dateutil) are given executable
definitions that follow their documented / CPython semantics on the inputs
this pipeline feeds them.
-/

namespace BankCleanup

/-! ### Python string primitives -/

/-- Whitespace characters recognised by Python's `str.strip()` (ASCII part). -/
def isPySpace (c : Char) : Bool :=
  c == ' ' || c == '\t' || c == '\n' || c == '\r' || c == '\x0b' || c == '\x0c'

/-- Python `str.strip()` on a character list. -/
def pyStripList (l : List Char) : List Char :=
  ((l.dropWhile isPySpace).reverse.dropWhile isPySpace).reverse

/-- Python `str.strip()`. -/
def pyStrip (s : String) : String := String.mk (pyStripList s.data)

/-- Python `str.lower()` (ASCII inputs). -/
def pyLower (s : String) : String := String.mk (s.data.map Char.toLower)

/-- Helper for `pyTitle`: tracks whether the previous character was alphabetic. -/
def pyTitleAux : Bool → List Char → List Char
  | _, [] => []
  | prevAlpha, c :: cs =>
    if c.isAlpha then
      (if prevAlpha then c.toLower else c.toUpper) :: pyTitleAux true cs
    else
      c :: pyTitleAux false cs

/-- Python `str.title()` (ASCII inputs): the first letter of every
alphabetic run is upper-cased, the rest lower-cased. -/
def pyTitle (s : String) : String := String.mk (pyTitleAux false s.data)

/-! ### Category tables (`cleanup.py` lines 37-49) -/

/-- `VALID_CATEGORIES` from `cleanup.py` line 37. -/
def VALID_CATEGORIES : List String :=
  ["Groceries", "Utilities", "Entertainment", "Salary", "Rent",
   "Transportation", "Dining Out", "Miscellaneous", "Unspecified"]

/-- `SYNONYM_MAP` from `cleanup.py` lines 38-47, in source (insertion) order. -/
def SYNONYM_MAP : List (String × List String) :=
  [("Groceries", ["food", "grocery", "grocer", "supermarket", "groc3ry", "groc3ry shopping"]),
   ("Utilities", ["utility", "utilities", "electric", "el3ctric", "water", "gas bill"]),
   ("Entertainment", ["movie", "movietickets", "movieticket", "movi3", "concert", "streaming", "dining out"]),
   ("Salary", ["salary", "salaray", "s@l@ry", "payroll", "paycheck", "deposit"]),
   ("Rent", ["rent", "r3nt", "landlord", "lease"]),
   ("Transportation", ["gas", "g@s", "gas station", "transportation"]),
   ("Dining Out", ["dinner", "restaurant", "dinn3r"]),
   ("Miscellaneous", ["misc", "miscellaneous", "unspecified"])]

/-- `SYN_TO_CAT` from `cleanup.py` line 49: the synonym-to-category pairs in
dict-comprehension order (Python dicts preserve insertion order; all synonym
keys are distinct and already lower-case). -/
def SYN_TO_CAT : List (String × String) :=
  SYNONYM_MAP.flatMap (fun p => p.2.map (fun syn => (syn, p.1)))

/-- Dictionary lookup `SYN_TO_CAT[c]` / membership `c in SYN_TO_CAT`. -/
def synLookup (c : String) : Option String :=
  (SYN_TO_CAT.find? (fun p => p.1 == c)).map (fun p => p.2)

/-! ### difflib model

`clean_category` falls back to `difflib.get_close_matches(word, keys, n=1,
cutoff=0.8)`.  We embed CPython's `SequenceMatcher` for short strings
(autojunk never triggers below 200 characters, and with an empty junk set
the two extension `while` loops of `find_longest_match` can never move, so
they are omitted).  Ratios `2*M/T` are compared as exact rationals by
cross-multiplication, which agrees with the IEEE-double comparison for the
small numerators/denominators that arise here. -/

/-- Ascending positions of `c` in `b` (difflib's `b2j` lists). -/
def positionsOf (b : List Char) (c : Char) : List Nat :=
  (List.range b.length).filter (fun j => b.getD j ' ' == c && decide (j < b.length))

/-- Association-list lookup with default 0 (difflib's `j2len.get(j-1, 0)`). -/
def j2lenGet (m : List (Nat × Nat)) (j : Nat) : Nat :=
  ((m.find? (fun p => p.1 == j)).map (fun p => p.2)).getD 0

/-- One row of the `find_longest_match` dynamic program: processes position
`i` of `a`, returning the new `j2len` table and updated best triple
`(besti, bestj, bestsize)`. -/
def flmRow (a b : List Char) (blo bhi : Nat) (i : Nat)
    (st : List (Nat × Nat) × (Nat × Nat × Nat)) : List (Nat × Nat) × (Nat × Nat × Nat) :=
  let js := (positionsOf b (a.getD i ' ')).filter (fun j => decide (blo ≤ j) && decide (j < bhi))
  js.foldl
    (fun st2 j =>
      let k := (if j = 0 then 0 else j2lenGet st.1 (j - 1)) + 1
      let best := if k > st2.2.2.2 then (i + 1 - k, j + 1 - k, k) else st2.2
      ((j, k) :: st2.1, best))
    ([], st.2)

/-- CPython `SequenceMatcher.find_longest_match(alo, ahi, blo, bhi)` with an
empty junk set: returns `(besti, bestj, bestsize)`. -/
def findLongestMatch (a b : List Char) (alo ahi blo bhi : Nat) : Nat × Nat × Nat :=
  (((List.range (ahi - alo)).map (fun t => t + alo)).foldl
    (fun st i => flmRow a b blo bhi i st) ([], (alo, blo, 0))).2

/-- Total size of the matching blocks of `SequenceMatcher.get_matching_blocks`
restricted to the window `[alo,ahi) × [blo,bhi)`; `fuel` bounds the
recursion depth (any value above `(ahi-alo)+(bhi-blo)` is exact). -/
def matchTotal (a b : List Char) : Nat → Nat → Nat → Nat → Nat → Nat
  | 0, _, _, _, _ => 0
  | fuel + 1, alo, ahi, blo, bhi =>
    let r := findLongestMatch a b alo ahi blo bhi
    let k := r.2.2
    if k = 0 then 0
    else matchTotal a b fuel alo r.1 blo r.2.1 + k +
         matchTotal a b fuel (r.1 + k) ahi (r.2.1 + k) bhi

/-- Total matched size `M` of `SequenceMatcher(a, b)` (so `ratio = 2M/T`). -/
def matchSize (a b : List Char) : Nat :=
  matchTotal a b (a.length + b.length + 1) 0 a.length 0 b.length

/-- `SequenceMatcher.ratio()` as an exact `(numerator, denominator)` pair;
`ratio = 1.0` when both sequences are empty. -/
def ratioPair (a b : List Char) : Nat × Nat :=
  let t := a.length + b.length
  if t = 0 then (2, 2) else (2 * matchSize a b, t)

/-- Candidate update step of `difflib.get_close_matches(word, ..., n=1,
cutoff=0.8)`: keep candidates with ratio ≥ 4/5 and retain the maximum by
`(ratio, candidate-string)` — `heapq.nlargest` compares `(score, x)` tuples,
so ratio ties are broken towards the lexicographically larger string. -/
def gcmBetter (w : List Char) (b : String × Nat × Nat) (x : String) : Bool :=
  decide ((ratioPair x.data w).1 * b.2.2 > b.2.1 * (ratioPair x.data w).2) ||
    ((ratioPair x.data w).1 * b.2.2 == b.2.1 * (ratioPair x.data w).2 && decide (b.1 < x))

def gcmStep (w : List Char) (best : Option (String × Nat × Nat)) (x : String) :
    Option (String × Nat × Nat) :=
  if 5 * (ratioPair x.data w).1 ≥ 4 * (ratioPair x.data w).2 then
    match best with
    | none => some (x, ratioPair x.data w)
    | some b => if gcmBetter w b x then some (x, ratioPair x.data w) else some b
  else best

/-- Fold of `gcmStep` over the candidate list. -/
def gcmAux (w : List Char) : List String → Option (String × Nat × Nat) → Option (String × Nat × Nat)
  | [], best => best
  | x :: rest, best => gcmAux w rest (gcmStep w best x)

/-- `difflib.get_close_matches(word, possibilities, n=1, cutoff=0.8)`,
returning the single best match if any candidate reaches the cutoff. -/
def getCloseMatch1 (word : String) (possibilities : List String) : Option String :=
  (gcmAux word.data possibilities none).map (fun p => p.1)

/-- `clean_category` from `cleanup.py` lines 96-111. -/
def cleanCategory : Option String → String
  | none => "Unspecified"
  | some cat =>
    if pyStrip cat = "" then "Unspecified"
    else
      let c := pyLower (pyStrip cat)
      match synLookup c with
      | some v => v
      | none =>
        match getCloseMatch1 c (SYN_TO_CAT.map (fun p => p.1)) with
        | some m => (synLookup m).getD ("Unspecified")
        | none =>
          match getCloseMatch1 (pyTitle c) VALID_CATEGORIES with
          | some m2 => m2
          | none => "Unspecified"

/-! ### Description normalizer (`cleanup.py` lines 69-78) -/

/-- The leetspeak reversal chain of `clean_description`:
`.replace('@','a').replace('3','e').replace('0','o').replace('$','s').replace('5','s')`.
All substitutions are single-character, so the chain is a per-character map. -/
def subChar (c : Char) : Char :=
  if c = '@' then 'a'
  else if c = '3' then 'e'
  else if c = '0' then 'o'
  else if c = '$' then 's'
  else if c = '5' then 's'
  else c

/-- Character class kept by `re.sub(r'[^A-Za-z0-9\-\.,& ]+', '', s)`. -/
def allowedDescChar (c : Char) : Bool :=
  c.isAlpha || c.isDigit || c == '-' || c == '.' || c == ',' || c == '&' || c == ' '

/-- Model of `re.sub(r'\s+', ' ', s)`: collapse each run of whitespace to a
single space; the flag records whether the previous character was whitespace. -/
def collapseWsAux : Bool → List Char → List Char
  | _, [] => []
  | prevWs, c :: cs =>
    if isPySpace c then
      (if prevWs then collapseWsAux true cs else ' ' :: collapseWsAux true cs)
    else c :: collapseWsAux false cs

/-- `clean_description` from `cleanup.py` lines 69-78. -/
def cleanDescription : Option String → String
  | none => "Unspecified"
  | some s =>
    String.mk (pyStripList (collapseWsAux false
      ((pyStripList s.data).map subChar |>.filter allowedDescChar)))

/-! ### Amount normalizer (`cleanup.py` lines 80-94)

Finite floats are modelled as exact rationals and `round(x, 2)` as
round-half-to-even on the exact value.  Two behaviours of CPython floats are
load-bearing for the claims and modelled explicitly: `float()` on an
out-of-range decimal string saturates to an infinity instead of raising,
and `str()` of a float switches from positional decimal to scientific
notation at magnitude 1e16. -/

/-- Character class kept by `re.sub(r'[^\d\.\-]', '', s)`. -/
def allowedAmtChar (c : Char) : Bool :=
  c.isDigit || c == '.' || c == '-'

/-- Model of `re.sub(r'\.{2,}', '.', s)`: every maximal run of dots becomes a
single dot (runs of length one are already single). -/
def collapseDotsAux : Bool → List Char → List Char
  | _, [] => []
  | prevDot, c :: cs =>
    if c = '.' then
      (if prevDot then collapseDotsAux true cs else '.' :: collapseDotsAux true cs)
    else c :: collapseDotsAux false cs

/-- The minus-sign fixup: `if s.count('-') > 1: s = '-' + s.replace('-', '')`. -/
def fixMinus (l : List Char) : List Char :=
  if 1 < l.count '-' then '-' :: l.filter (fun c => !(c == '-')) else l

/-- Value of a big-endian list of ASCII digit characters. -/
def digitsToNat (l : List Char) : Nat :=
  l.foldl (fun acc c => 10 * acc + (c.toNat - 48)) 0

/-- Unsigned part of the Python `float(s)` grammar over digits and dots: at
most one dot, at least one digit, nothing else; the value is the integer
part plus the fractional digits scaled by their count. -/
def parseUnsigned (body : List Char) : Option ℚ :=
  if (body.all fun c => c.isDigit || c == '.') &&
      decide (body.count '.' ≤ 1) && decide (1 ≤ body.countP (fun c => c.isDigit)) then
    some ((digitsToNat (body.takeWhile (fun c => c != '.')) : ℚ) +
      (digitsToNat ((body.dropWhile (fun c => c != '.')).drop 1) : ℚ) /
        (10 : ℚ) ^ ((body.dropWhile (fun c => c != '.')).drop 1).length)
  else none

/-- A Python float value as this pipeline can produce it: an exact finite
value (finite doubles are modelled as exact rationals, as everywhere in
this development) or an infinity produced by overflow saturation.  (NaN
cells are caught by the `pd.isna` test before this type is reached.) -/
inductive PyFloat where
  | finite (q : ℚ) : PyFloat
  | posInf : PyFloat
  | negInf : PyFloat
deriving DecidableEq

/-- Smallest magnitude at which `strtod`/`float()` rounds a decimal literal
up to infinity: the midpoint between the largest finite double
`2^1024 - 2^971` and `2^1024` (round-to-nearest-even sends the midpoint to
the even significand, hence to infinity). -/
def dblOverflowBound : ℚ := 2 ^ 1024 - 2 ^ 970

/-- Model of Python `float(s)` restricted to strings over digits, `.` and `-`
(the only characters that survive the amount regex): an optional leading
minus, then digits with at most one dot and at least one digit.  A value at
or beyond the double range saturates to the correctly-signed infinity — it
does not raise (C `strtod` semantics, e.g. `float('9'*309) = inf`).
(`float` also accepts exponents, `inf`, `nan`, underscores and a leading
`+`, but none of those characters can reach this call; rounding of in-range
values to the nearest double is not modelled — finite floats stay exact.) -/
def parsePyFloat (l : List Char) : Option PyFloat :=
  if l.head? = some '-' then
    (parseUnsigned l.tail).map (fun v =>
      if dblOverflowBound ≤ v then PyFloat.negInf else PyFloat.finite (-v))
  else
    (parseUnsigned l).map (fun v =>
      if dblOverflowBound ≤ v then PyFloat.posInf else PyFloat.finite v)

/-- Round-half-to-even to an integer (the tie rule of Python's `round`). -/
def halfEvenRound (x : ℚ) : ℤ :=
  let f := ⌊x⌋
  if x - (f : ℚ) < 1 / 2 then f
  else if (1 : ℚ) / 2 < x - (f : ℚ) then f + 1
  else if f % 2 = 0 then f else f + 1

/-- `round(x, 2)` on an exact finite value. -/
def round2q (q : ℚ) : ℚ := ((halfEvenRound (q * 100) : ℤ) : ℚ) / 100

/-- Python `round(x, 2)` on a float: rounds a finite value to two decimals
and returns infinities unchanged (`round(inf, 2) = inf`, no error). -/
def roundPy2 : PyFloat → PyFloat
  | .finite q => .finite (round2q q)
  | .posInf => .posInf
  | .negInf => .negInf

/-- `clean_amount` from `cleanup.py` lines 80-94 applied to a string value. -/
def cleanAmountStr (s : String) : Option PyFloat :=
  if pyStrip s = "" then none
  else
    (parsePyFloat (fixMinus (collapseDotsAux false (s.data.filter allowedAmtChar)))).map roundPy2

/-- A raw amount cell: missing (`NaN`), a string, or a number (a Python
float; a non-NaN float is never `pd.isna`). -/
inductive RawAmount where
  | na : RawAmount
  | str (s : String) : RawAmount
  | num (x : PyFloat) : RawAmount

/-- Decimal digits of `n` as characters, most significant first. -/
def natDigitChars (n : Nat) : List Char :=
  if n = 0 then ['0'] else (Nat.digits 10 n).reverse.map (fun d => Char.ofNat (48 + d))

/-- Fractional digits printed for the two-decimal remainder `fr` (with
trailing-zero trimming, but at least one digit). -/
def fracChars (fr : Nat) : List Char :=
  if fr = 0 then ['0']
  else if fr % 10 = 0 then [Char.ofNat (48 + fr / 10)]
  else [Char.ofNat (48 + fr / 10), Char.ofNat (48 + fr % 10)]

/-- Positional-decimal `str(x)` of a float holding an exact two-decimal
value of magnitude below 1e16 (the regime where CPython prints positionally):
the shortest round-tripping decimal, i.e. the value's own decimal expansion
with trailing fractional zeros dropped but at least one fractional digit
(`str(45.0) = "45.0"`, `str(12.5) = "12.5"`, `str(0.05) = "0.05"`). -/
def renderFloat2 (q : ℚ) : String :=
  let n : ℤ := ⌊q * 100⌋
  String.mk ((if n < 0 then ['-'] else []) ++
    natDigitChars (n.natAbs / 100) ++ '.' :: fracChars (n.natAbs % 100))

/-- Scientific-notation rendering of a positive integer float value `m`
(every double of magnitude ≥ 1e16 is an integer): the leading digit, the
remaining digits with trailing zeros trimmed as the fraction, then the
`e+NN` exponent — `10^16 ↦ "1e+16"`, `123 * 10^14 ↦ "1.23e+16"`.
(`Nat.toDigits 10 m` never returns an empty list, so the first match arm is
unreachable.) -/
def sciChars (m : Nat) : List Char :=
  match Nat.toDigits 10 m with
  | [] => []
  | d :: rest =>
    let frac := (rest.reverse.dropWhile (fun c => c == '0')).reverse
    d :: ((if frac.isEmpty then [] else '.' :: frac) ++ 'e' :: '+' :: Nat.toDigits 10 rest.length)

/-- Model of Python `str(x)` on the float values this pipeline produces:
positional decimal (`renderFloat2`) for finite values of magnitude below
1e16, scientific notation at and above 1e16 (CPython's repr threshold,
`str(1e16) = "1e+16"`), and `inf` / `-inf` for the infinities. -/
def pyFloatStr : PyFloat → String
  | .posInf => "inf"
  | .negInf => "-inf"
  | .finite q =>
    if |q| < 10 ^ 16 then renderFloat2 q
    else String.mk ((if q < 0 then ['-'] else []) ++ sciChars (⌊|q|⌋).toNat)

/-- `clean_amount` from `cleanup.py` lines 80-94 on any raw cell.  For a
numeric cell `pd.isna` is false (no NaN in the model) and `str(a)` is the
float's repr, after which the same character pipeline runs. -/
def cleanAmount : RawAmount → Option PyFloat
  | .na => none
  | .str s => cleanAmountStr s
  | .num x => cleanAmountStr (pyFloatStr x)

/-- A 309-digit string of nines: a decimal literal beyond the double range
(`float('9'*309) = inf`). -/
def nines309 : String := String.mk (List.replicate 309 '9')

/-! ### Date normalizer (`cleanup.py` lines 54-67) -/

/-- Calendar date. -/
structure Date where
  y : Nat
  m : Nat
  d : Nat
deriving DecidableEq

/-- Gregorian leap-year rule. -/
def isLeapYear (y : Nat) : Bool :=
  (y % 4 == 0 && !(y % 100 == 0)) || y % 400 == 0

/-- Number of days of month `m` in year `y`. -/
def daysInMonth (y m : Nat) : Nat :=
  if m = 2 then (if isLeapYear y then 29 else 28)
  else if m = 4 ∨ m = 6 ∨ m = 9 ∨ m = 11 then 30
  else 31

/-- Build a date, validating ranges as `datetime.date` does. -/
def mkValidDate (y m d : Nat) : Option Date :=
  if 1 ≤ y ∧ y ≤ 9999 ∧ 1 ≤ m ∧ m ≤ 12 ∧ 1 ≤ d ∧ d ≤ daysInMonth y m then
    some ⟨y, m, d⟩
  else none

/-- Separators splitting a date string into tokens. -/
def isDateSep (c : Char) : Bool :=
  c == '/' || c == '-' || c == ' ' || c == ','

/-- Split a character list into separator-free tokens (empty tokens dropped). -/
def splitTokensAux : List Char → List Char → List (List Char)
  | [], acc => if acc.isEmpty then [] else [acc.reverse]
  | c :: cs, acc =>
    if isDateSep c then
      (if acc.isEmpty then splitTokensAux cs [] else acc.reverse :: splitTokensAux cs [])
    else splitTokensAux cs (c :: acc)

/-- Tokens of a date string. -/
def splitTokens (s : String) : List (List Char) := splitTokensAux s.data []

/-- True when the token is a nonempty all-digit string. -/
def isNumTok (t : List Char) : Bool := !t.isEmpty && t.all (fun c => c.isDigit)

/-- Abbreviated English month names (`%b`, and dateutil's short names). -/
def monthAbbrevs : List String :=
  ["jan", "feb", "mar", "apr", "may", "jun", "jul", "aug", "sep", "oct", "nov", "dec"]

/-- Full English month names (`%B`, and dateutil's long names). -/
def monthFulls : List String :=
  ["january", "february", "march", "april", "may", "june", "july", "august",
   "september", "october", "november", "december"]

/-- Case-insensitive month-name lookup (1-based). -/
def monthFromName (s : String) : Option Nat :=
  match monthAbbrevs.indexOf? (pyLower s) with
  | some i => some (i + 1)
  | none => (monthFulls.indexOf? (pyLower s)).map (fun i => i + 1)

/-- Model of `dateutil.parser.parse(s, dayfirst=False, yearfirst=False).date()`
on the three-token date shapes this pipeline exercises: a 4-digit year first
is followed by month then day; a 4-digit year last is preceded by
month/day (month first because `dayfirst=False`, swapped only when that
resolution is invalid); a textual month between a day and a 4-digit year is
read as day-monthname-year.  Other shapes (times, two-digit years, other
token counts) are outside the model and return `none`. -/
def dateutilParse (s : String) : Option Date :=
  match splitTokens s with
  | [t1, t2, t3] =>
    if isNumTok t1 && isNumTok t2 && isNumTok t3 then
      let a := digitsToNat t1
      let b := digitsToNat t2
      let c := digitsToNat t3
      if t1.length = 4 then mkValidDate a b c
      else if t3.length = 4 then
        match mkValidDate c a b with
        | some d => some d
        | none => mkValidDate c b a
      else none
    else if isNumTok t1 && isNumTok t3 && t3.length = 4 then
      match monthFromName (String.mk t2) with
      | some mo => mkValidDate (digitsToNat t3) mo (digitsToNat t1)
      | none => none
    else none
  | _ => none

/-- `datetime.strptime` with pattern `%d SEP %m SEP %Y` (or `%y`). -/
def tryNumDMY (sep : Char) (fourYear : Bool) (l : List Char) : Option Date :=
  match l.splitOn sep with
  | [d, m, y] =>
    if isNumTok d && isNumTok m && isNumTok y &&
        decide (d.length ≤ 2) && decide (m.length ≤ 2) &&
        (if fourYear then y.length == 4 else y.length == 2) then
      let yv := if fourYear then digitsToNat y
                else (if digitsToNat y ≤ 68 then 2000 + digitsToNat y else 1900 + digitsToNat y)
      mkValidDate yv (digitsToNat m) (digitsToNat d)
    else none
  | _ => none

/-- `datetime.strptime` with pattern `%Y/%m/%d`. -/
def tryNumYMD (l : List Char) : Option Date :=
  match l.splitOn '/' with
  | [y, m, d] =>
    if isNumTok y && isNumTok m && isNumTok d &&
        y.length == 4 && decide (m.length ≤ 2) && decide (d.length ≤ 2) then
      mkValidDate (digitsToNat y) (digitsToNat m) (digitsToNat d)
    else none
  | _ => none

/-- `datetime.strptime` with pattern `%d-%b-%Y` (`full = false`) or
`%d-%B-%Y` (`full = true`); month names match case-insensitively. -/
def tryTextualDMY (full : Bool) (l : List Char) : Option Date :=
  match l.splitOn '-' with
  | [d, mon, y] =>
    if isNumTok d && decide (d.length ≤ 2) && isNumTok y && y.length == 4 then
      match (if full then monthFulls else monthAbbrevs).indexOf? (pyLower (String.mk mon)) with
      | some i => mkValidDate (digitsToNat y) (i + 1) (digitsToNat d)
      | none => none
    else none
  | _ => none

/-- The explicit-format fallback loop of `standardize_date`
(`"%d/%m/%Y", "%d-%m-%Y", "%d/%m/%y", "%Y/%m/%d", "%d-%b-%Y", "%d-%B-%Y"`,
first success wins). -/
def strptimeFallback (l : List Char) : Option Date :=
  (tryNumDMY '/' true l).orElse fun _ =>
  (tryNumDMY '-' true l).orElse fun _ =>
  (tryNumDMY '/' false l).orElse fun _ =>
  (tryNumYMD l).orElse fun _ =>
  (tryTextualDMY false l).orElse fun _ =>
  tryTextualDMY true l

/-- `standardize_date` from `cleanup.py` lines 54-67. -/
def standardizeDate : Option String → Option Date
  | none => none
  | some s =>
    match dateutilParse (pyStrip s) with
    | some d => some d
    | none => strptimeFallback (pyStrip s).data

/-! ### Reconciliation stages of `load_and_clean` (`cleanup.py` lines 129-149)

These operate on the Amount column after sorting by date; the claims
quantify over the (arbitrary) post-sort column, so the sort itself needs no
model. -/

/-- Number of present (non-NaN) amounts: `df['Amount'].notna().sum()`. -/
def countPresent (xs : List (Option ℚ)) : Nat := (xs.filterMap id).length

/-- Index and value of the nearest present amount strictly before `i`. -/
def lastPresentBefore (xs : List (Option ℚ)) (i : Nat) : Option (Nat × ℚ) :=
  ((List.range i).filterMap (fun j => (xs.getD j none).map (fun v => (j, v)))).getLast?

/-- Index and value of the nearest present amount strictly after `i`. -/
def firstPresentAfter (xs : List (Option ℚ)) (i : Nat) : Option (Nat × ℚ) :=
  ((List.range xs.length).filterMap
    (fun j => if i < j then (xs.getD j none).map (fun v => (j, v)) else none)).head?

/-- Value of `df['Amount'].interpolate(method='linear').round(2)` at row `i`
(pandas semantics, `limit_direction='forward'`): a present value is kept
(and rounded); an absent value with no present predecessor stays absent; one
between two present neighbours is linearly interpolated by row position; one
after the last present value takes that value. -/
def interpAt (xs : List (Option ℚ)) (i : Nat) : Option ℚ :=
  match xs.getD i none with
  | some v => some (round2q v)
  | none =>
    match lastPresentBefore xs i, firstPresentAfter xs i with
    | none, _ => none
    | some jv, some kv =>
      some (round2q (jv.2 + (kv.2 - jv.2) * (((i : ℚ) - (jv.1 : ℚ)) / ((kv.1 : ℚ) - (jv.1 : ℚ)))))
    | some jv, none => some (round2q jv.2)

/-- The interpolation stage (`cleanup.py` lines 133-136): runs only when at
least two amounts are present, otherwise the column is left untouched. -/
def interpolateAmounts (xs : List (Option ℚ)) : List (Option ℚ) :=
  if 2 ≤ countPresent xs then (List.range xs.length).map (interpAt xs) else xs

/-- Running sums: `cumSums acc l` lists the partial sums of `l` shifted by `acc`. -/
def cumSums : ℚ → List ℚ → List ℚ
  | _, [] => []
  | acc, x :: rest => (acc + x) :: cumSums (acc + x) rest

/-- `df['Amount'].fillna(0).cumsum().round(2)` (`cleanup.py` line 139). -/
def computeBalance (xs : List (Option ℚ)) : List ℚ :=
  (cumSums 0 (xs.map (fun a => a.getD 0))).map round2q

/-- The table state around the balance assignment: the stored Amount column
and the Balance column. -/
structure CleanTable where
  amounts : List (Option ℚ)
  balances : List ℚ

/-- `df['Balance'] = df['Amount'].fillna(0).cumsum().round(2)`: assigns the
Balance column from a transformed copy of the Amount column. -/
def addBalanceStep (t : CleanTable) : CleanTable :=
  { t with balances := computeBalance t.amounts }

/-- `df['Amount'].abs().dropna()` (`cleanup.py` line 142). -/
def absPresent (xs : List (Option ℚ)) : List ℚ :=
  (xs.filterMap id).map (fun v => |v|)

/-- Mean of the absolute present amounts. -/
def meanAbs (xs : List (Option ℚ)) : ℚ :=
  (absPresent xs).sum / ((absPresent xs).length : ℚ)

/-- Population variance (`ddof=0`) of the absolute present amounts; the
standard deviation of the source is its square root, and `x > mean + 3*std`
is decided below by the equivalent squared comparison.  (`std(ddof=0)` of a
nonempty series is never NaN, so the source's `np.isnan` guard is inert.) -/
def varAbs (xs : List (Option ℚ)) : ℚ :=
  (((absPresent xs).map (fun t => (t - meanAbs xs) ^ 2)).sum) / ((absPresent xs).length : ℚ)

/-- The anomaly stage (`cleanup.py` lines 141-149): with no present amount
every flag is False; otherwise a row is flagged iff its amount is present
and `|amount| > mean + 3*std`, written here as the exact squared comparison
`0 < |v| - mean ∧ 9*var < (|v| - mean)^2`. -/
def anomalyFlags (xs : List (Option ℚ)) : List Bool :=
  if absPresent xs = [] then xs.map (fun _ => false)
  else xs.map (fun a =>
    match a with
    | none => false
    | some v =>
      decide (0 < |v| - meanAbs xs) && decide (9 * varAbs xs < (|v| - meanAbs xs) ^ 2))

/-! ### Monthly summary (`cleanup.py` lines 153-165) -/

/-- A cleaned transaction row (the columns `monthly_summary` reads). -/
structure Row where
  date : Option Date
  description : String
  amount : Option ℚ
  category : String
deriving DecidableEq

/-- Year-month bucket of a row (`df2['Date'].dt.to_period('M')`); only
applied to rows with a present date. -/
def monthOf (r : Row) : Nat × Nat :=
  match r.date with
  | some d => (d.y, d.m)
  | none => (0, 0)

/-- Chronological order on year-month buckets (pandas sorts group keys). -/
def monthLE (a b : Nat × Nat) : Prop := a.1 < b.1 ∨ (a.1 = b.1 ∧ a.2 ≤ b.2)

instance : DecidableRel monthLE := fun a b => by unfold monthLE; infer_instance

/-- One record of the monthly summary table. -/
structure MonthlyRec where
  month : Nat × Nat
  transactions : Nat
  total_income : ℚ
  total_expense : ℚ
  net : ℚ
deriving DecidableEq

/-- `monthly_summary` from `cleanup.py` lines 153-162: rows with a present
date are grouped by year-month (keys sorted ascending);
`transactions=('Amount','count')` counts the rows of the group whose Amount
is present (pandas `count` skips NaN); income/expense/net sum the positive,
negative, and all present amounts.  (The category-breakdown table also
returned by the source is not needed by any claim.) -/
def monthlySummary (rows : List Row) : List MonthlyRec :=
  let present := rows.filter (fun r => r.date.isSome)
  let months := ((present.map monthOf).dedup).insertionSort monthLE
  months.map (fun mo =>
    let grp := present.filter (fun r => decide (monthOf r = mo))
    let amts := grp.filterMap (fun r => r.amount)
    { month := mo
      transactions := (grp.filter (fun r => r.amount.isSome)).length
      total_income := (amts.filter (fun v => decide (0 < v))).sum
      total_expense := (amts.filter (fun v => decide (v < 0))).sum
      net := amts.sum })

/-- The concrete table used to witness C5: ten 1-amounts and one 1000. -/
def anomalyExample : List (Option ℚ) :=
  [some 1, some 1, some 1, some 1, some 1, some 1, some 1, some 1, some 1, some 1, some 1000]

/-! ### Generic helper lemmas -/

theorem getD_map_of_lt {α β : Type} (f : α → β) (l : List α) (i : Nat)
    (h : i < l.length) (d : α) (d' : β) : (l.map f).getD i d' = f (l.getD i d) := by
  induction l generalizing i with
  | nil => simp at h
  | cons a l ih =>
    cases i with
    | zero => rfl
    | succ n =>
      simp only [List.map_cons, List.getD_cons_succ]
      exact ih n (by simpa using h)

theorem getD_const_false {α : Type} (l : List α) (i : Nat) : ((l.map (fun _ => false)).getD i false) = false := by
  induction l generalizing i with
  | nil => rfl
  | cons a l ih =>
    cases i with
    | zero => rfl
    | succ n => simp only [List.map_cons, List.getD_cons_succ]; exact ih n

theorem dropWhile_eq_self_of_all {α : Type} (p : α → Bool) (l : List α)
    (h : ∀ c ∈ l, p c = false) : l.dropWhile p = l := by
  cases l with
  | nil => rfl
  | cons a l => rw [List.dropWhile_cons_of_neg (by simp [h a (by simp)])]

theorem pyStripList_eq_self (l : List Char) (h : ∀ c ∈ l, isPySpace c = false) :
    pyStripList l = l := by
  unfold pyStripList
  rw [dropWhile_eq_self_of_all _ _ h,
      dropWhile_eq_self_of_all _ _ (fun c hc => h c (List.mem_reverse.mp hc)),
      List.reverse_reverse]

/-! ### Claim C10 -/

/-- C10: for a present input whose characters, after the leetspeak
substitutions, all lie outside the allowed character class,
`clean_description` returns the empty string; the "Unspecified" placeholder
is produced only for a missing input. -/
theorem c10_description_can_be_empty :
    cleanDescription none = "Unspecified" ∧
    ∀ s : String, (∀ c ∈ (pyStripList s.data).map subChar, allowedDescChar c = false) →
      cleanDescription (some s) = "" := by
  refine ⟨rfl, fun s h => ?_⟩
  have hf : ((pyStripList s.data).map subChar).filter allowedDescChar = [] := by
    rw [List.filter_eq_nil_iff]
    intro a ha
    simp [h a ha]
  show String.mk (pyStripList (collapseWsAux false
    (((pyStripList s.data).map subChar).filter allowedDescChar))) = ""
  rw [hf]
  rfl

/-- Witness for C10 at the concrete present input `"!?*"`. -/
theorem c10_witness : cleanDescription (some ("!?*")) = "" :=
  c10_description_can_be_empty.2 ("!?*") (by decide)

/-! ### Claim C7 -/

theorem round2q_shape (p : ℚ) : ∃ n : ℤ, round2q p = (n : ℚ) / 100 :=
  ⟨halfEvenRound (p * 100), rfl⟩

set_option maxRecDepth 1000000 in
theorem dblOverflowBound_big : (10 : ℚ) ^ 18 ≤ dblOverflowBound := by
  unfold dblOverflowBound
  have h1 : ((10 ^ 18 + 2 ^ 970 : ℕ) : ℚ) ≤ ((2 ^ 1024 : ℕ) : ℚ) := by
    exact_mod_cast (by decide : (10 ^ 18 + 2 ^ 970 : ℕ) ≤ 2 ^ 1024)
  push_cast at h1
  linarith

set_option maxRecDepth 1000000 in
theorem dblOverflowBound_le_nines : dblOverflowBound ≤ ((10 ^ 309 - 1 : ℕ) : ℚ) := by
  unfold dblOverflowBound
  have h1 : ((2 ^ 1024 : ℕ) : ℚ) ≤ ((10 ^ 309 - 1 : ℕ) : ℚ) + ((2 ^ 970 : ℕ) : ℚ) := by
    exact_mod_cast (by decide : (2 ^ 1024 : ℕ) ≤ 10 ^ 309 - 1 + 2 ^ 970)
  simp only [Nat.cast_pow, Nat.cast_ofNat] at h1
  linarith

theorem cleanAmountStr_cases (s : String) :
    cleanAmountStr s = none ∨
    (∃ n : ℤ, cleanAmountStr s = some (PyFloat.finite ((n : ℚ) / 100))) ∨
    cleanAmountStr s = some PyFloat.posInf ∨
    cleanAmountStr s = some PyFloat.negInf := by
  unfold cleanAmountStr
  split
  · exact Or.inl rfl
  · cases hp : parsePyFloat (fixMinus (collapseDotsAux false (s.data.filter allowedAmtChar))) with
    | none => exact Or.inl (by simp [hp])
    | some x =>
      cases x with
      | finite p =>
        exact Or.inr (Or.inl ⟨halfEvenRound (p * 100), by simp [hp, roundPy2, round2q]⟩)
      | posInf => exact Or.inr (Or.inr (Or.inl (by simp [hp, roundPy2])))
      | negInf => exact Or.inr (Or.inr (Or.inr (by simp [hp, roundPy2])))

set_option maxRecDepth 1000000 in
/-- Counterexample to C7: on a 309-digit string of nines, `float()` does not
raise but saturates to infinity (`float('9'*309) = inf`) and
`round(inf, 2) = inf`, so `clean_amount` returns a PRESENT value that is an
infinity, not a number rounded to 2 decimal places — refuting the claim
that every result is absent or a two-decimal number. -/
theorem c7_counterexample :
    cleanAmount (RawAmount.str nines309) = some PyFloat.posInf ∧
    ¬ ∃ n : ℤ, (PyFloat.posInf : PyFloat) = PyFloat.finite ((n : ℚ) / 100) := by
  constructor
  · show cleanAmountStr nines309 = some PyFloat.posInf
    unfold cleanAmountStr
    rw [if_neg (by decide)]
    have hchars : fixMinus (collapseDotsAux false (nines309.data.filter allowedAmtChar)) =
        List.replicate 309 '9' := rfl
    rw [hchars]
    have hhead : parsePyFloat (List.replicate 309 '9') =
        (parseUnsigned (List.replicate 309 '9')).map (fun v =>
          if dblOverflowBound ≤ v then PyFloat.posInf else PyFloat.finite v) := by
      unfold parsePyFloat
      rw [if_neg (by decide)]
    have hpu : parseUnsigned (List.replicate 309 '9') =
        some (((10 ^ 309 - 1 : ℕ) : ℚ) + ((0 : ℕ) : ℚ) / (10 : ℚ) ^ (0 : ℕ)) := rfl
    rw [hhead, hpu]
    simp only [Option.map_some']
    rw [if_pos ?hbig]
    case hbig =>
      rw [show ((0 : ℕ) : ℚ) / (10 : ℚ) ^ (0 : ℕ) = 0 from by norm_num, add_zero]
      exact dblOverflowBound_le_nines
    rfl
  · rintro ⟨n, h⟩
    exact PyFloat.noConfusion h

/-- C7 amended: `clean_amount` is total on every raw cell (missing, string
or number) — modelled by it being a Lean function into `Option` — and a
missing or blank cell and an unparsable cell all give absent rather than an
error; every present result is either a number with at most two decimal
places or an infinity produced by `float()`'s overflow saturation. -/
theorem c7_amended_amount_shape :
    (∀ a : RawAmount, cleanAmount a = none ∨
      (∃ n : ℤ, cleanAmount a = some (PyFloat.finite ((n : ℚ) / 100))) ∨
      cleanAmount a = some PyFloat.posInf ∨
      cleanAmount a = some PyFloat.negInf) ∧
    cleanAmount RawAmount.na = none ∧
    (∀ s : String, pyStrip s = "" → cleanAmount (RawAmount.str s) = none) ∧
    (∀ s : String,
      parsePyFloat (fixMinus (collapseDotsAux false (s.data.filter allowedAmtChar))) = none →
      cleanAmount (RawAmount.str s) = none) := by
  refine ⟨?_, rfl, ?_, ?_⟩
  · intro a
    cases a with
    | na => exact Or.inl rfl
    | str s => exact cleanAmountStr_cases s
    | num x => exact cleanAmountStr_cases (pyFloatStr x)
  · intro s h
    show cleanAmountStr s = none
    unfold cleanAmountStr
    simp [h]
  · intro s h
    show cleanAmountStr s = none
    unfold cleanAmountStr
    split
    · rfl
    · simp [h]

/-- Witness for C7: a blank cell and an unparsable cell both come back
absent. -/
theorem c7_witness :
    cleanAmount (RawAmount.str ("  ")) = none ∧ cleanAmount (RawAmount.str ("abc")) = none :=
  ⟨c7_amended_amount_shape.2.2.1 ("  ") (by decide),
   c7_amended_amount_shape.2.2.2 ("abc") (by decide)⟩

/-! ### Claim C9 -/

theorem synToCat_values_valid : ∀ p ∈ SYN_TO_CAT, p.2 ∈ VALID_CATEGORIES := by decide

theorem synLookup_valid (c v : String) (h : synLookup c = some v) : v ∈ VALID_CATEGORIES := by
  unfold synLookup at h
  cases hf : SYN_TO_CAT.find? (fun p => p.1 == c) with
  | none => rw [hf] at h; exact Option.noConfusion h
  | some p =>
    rw [hf] at h
    simp only [Option.map_some'] at h
    cases h
    exact synToCat_values_valid p (List.mem_of_find?_eq_some hf)

theorem gcmStep_cases (w : List Char) (best : Option (String × Nat × Nat)) (x : String)
    (b : String × Nat × Nat) (h : gcmStep w best x = some b) : b.1 = x ∨ best = some b := by
  cases best with
  | none =>
    unfold gcmStep at h
    split at h
    · cases h; exact Or.inl rfl
    · exact Option.noConfusion h
  | some bb =>
    unfold gcmStep at h
    split at h
    · dsimp only at h
      cases hgb : gcmBetter w bb x with
      | true => rw [hgb, if_pos rfl] at h; cases h; exact Or.inl rfl
      | false => rw [hgb] at h; simp only [Bool.false_eq_true, if_false] at h; cases h; exact Or.inr rfl
    · cases h; exact Or.inr rfl

theorem gcmAux_mem (w : List Char) :
    ∀ (l : List String) (best : Option (String × Nat × Nat)) (r : String × Nat × Nat),
      gcmAux w l best = some r → best = some r ∨ r.1 ∈ l := by
  intro l
  induction l with
  | nil => intro best r h; exact Or.inl h
  | cons x rest ih =>
    intro best r h
    rcases ih (gcmStep w best x) r h with hstep | hmem
    · rcases gcmStep_cases w best x r hstep with hx | hb
      · exact Or.inr (by rw [hx]; exact List.mem_cons_self x rest)
      · exact Or.inl hb
    · exact Or.inr (List.mem_cons_of_mem x hmem)

theorem getCloseMatch1_mem (w : String) (l : List String) (m : String)
    (h : getCloseMatch1 w l = some m) : m ∈ l := by
  unfold getCloseMatch1 at h
  cases hg : gcmAux w.data l none with
  | none => rw [hg] at h; exact Option.noConfusion h
  | some r =>
    rw [hg] at h
    simp only [Option.map_some'] at h
    cases h
    rcases gcmAux_mem w.data l none r hg with hc | hm
    · simp at hc
    · exact hm

/-- C9: whatever the input (missing, blank or arbitrary text), the value
returned by `clean_category` is a member of the canonical category set —
every branch (default, exact synonym, fuzzy synonym, fuzzy canonical)
yields a canonical label. -/
theorem c9_category_always_canonical :
    ∀ cat : Option String, cleanCategory cat ∈ VALID_CATEGORIES := by
  intro cat
  cases cat with
  | none => decide
  | some s =>
    show (if pyStrip s = "" then "Unspecified" else _) ∈ VALID_CATEGORIES
    split
    · decide
    · cases hsyn : synLookup (pyLower (pyStrip s)) with
      | some v => simp only [hsyn]; exact synLookup_valid _ v hsyn
      | none =>
        simp only [hsyn]
        cases hm : getCloseMatch1 (pyLower (pyStrip s)) (SYN_TO_CAT.map (fun p => p.1)) with
        | some m =>
          simp only [hm]
          cases hm2 : synLookup m with
          | some v => simp only [hm2, Option.getD_some]; exact synLookup_valid m v hm2
          | none => simp only [hm2, Option.getD_none]; decide
        | none =>
          simp only [hm]
          cases hm3 : getCloseMatch1 (pyTitle (pyLower (pyStrip s))) VALID_CATEGORIES with
          | some m2 => simp only [hm3]; exact getCloseMatch1_mem _ _ m2 hm3
          | none => simp only [hm3]; decide



/-! ### Claim C1 -/

/-- Counterexample to C1: `"Dining Out"` is verbatim a member of the
canonical category set, yet `clean_category` maps it to `"Entertainment"`
(the synonym table lists `'dining out'` under Entertainment, and the exact
synonym lookup runs first). -/
theorem c1_counterexample :
    "Dining Out" ∈ VALID_CATEGORIES ∧
    cleanCategory (some ("Dining Out")) = "Entertainment" ∧
    cleanCategory (some ("Dining Out")) ≠ "Dining Out" := by
  decide

set_option maxRecDepth 1000000 in
/-- C1 amended: seven of the nine canonical category strings are returned
unchanged by `clean_category`; the two exceptions are forced by the synonym
table: `"Dining Out"` (a listed synonym of Entertainment) resolves to
`"Entertainment"`, and `"Unspecified"` (a listed synonym of Miscellaneous)
resolves to `"Miscellaneous"`. -/
theorem c1_amended_canonical_fixed_points :
    cleanCategory (some ("Groceries")) = "Groceries" ∧
    cleanCategory (some ("Utilities")) = "Utilities" ∧
    cleanCategory (some ("Entertainment")) = "Entertainment" ∧
    cleanCategory (some ("Salary")) = "Salary" ∧
    cleanCategory (some ("Rent")) = "Rent" ∧
    cleanCategory (some ("Transportation")) = "Transportation" ∧
    cleanCategory (some ("Miscellaneous")) = "Miscellaneous" ∧
    cleanCategory (some ("Dining Out")) = "Entertainment" ∧
    cleanCategory (some ("Unspecified")) = "Miscellaneous" := by
  refine ⟨by decide, by decide, by decide, by decide, by decide, by decide, by decide,
    by decide, by decide⟩

/-! ### Claim C3 -/

/-- Counterexample to C3: the code parses with `dayfirst=False`, so the
slashed numeric form of 5 March 2024 ("05/03/2024") is read month-first as
2024-05-03, while the ISO form "2024-03-05" gives 2024-03-05 — the two
supported representations of one calendar date disagree, refuting the
fixed day-first reading the claim asserts. -/
theorem c3_counterexample :
    standardizeDate (some ("2024-03-05")) = some (Date.mk 2024 3 5) ∧
    standardizeDate (some ("05/03/2024")) = some (Date.mk 2024 5 3) ∧
    Date.mk 2024 5 3 ≠ Date.mk 2024 3 5 := by
  decide

/-- C3 amended: `standardize_date` is month-first (`dayfirst=False`), not
day-first: the ISO form "2024-03-05" and the textual form "5-Mar-2024"
agree on 2024-03-05, while the slashed numeric form "05/03/2024" is
interpreted month-first as 2024-05-03; representations agree across formats
only when the month-first reading is the intended one (or the form is
unambiguous). -/
theorem c3_amended_month_first :
    standardizeDate (some ("2024-03-05")) = some (Date.mk 2024 3 5) ∧
    standardizeDate (some ("5-Mar-2024")) = some (Date.mk 2024 3 5) ∧
    standardizeDate (some ("05/03/2024")) = some (Date.mk 2024 5 3) ∧
    standardizeDate none = none := by
  decide

/-! ### Claim C6 -/

theorem cumSums_length (l : List ℚ) : ∀ acc : ℚ, (cumSums acc l).length = l.length := by
  induction l with
  | nil => intro acc; rfl
  | cons x xs ih => intro acc; simp [cumSums, ih]

theorem cumSums_getD (l : List ℚ) :
    ∀ (acc : ℚ) (i : Nat), i < l.length →
      (cumSums acc l).getD i 0 = acc + (l.take (i + 1)).sum := by
  induction l with
  | nil => intro acc i h; simp at h
  | cons x xs ih =>
    intro acc i h
    cases i with
    | zero => simp [cumSums]
    | succ n =>
      have hn : n < xs.length := by simpa using h
      simp only [cumSums, List.getD_cons_succ, List.take_succ_cons, List.sum_cons]
      rw [ih (acc + x) n hn]
      ring

/-- C6: assigning the Balance column sets, at every row `i`, the cumulative
sum of the amounts up to row `i` (absent amounts contributing 0) rounded to
2 decimals — and it leaves the stored Amount column unchanged, so absent
amounts stay absent and present amounts keep their values. -/
theorem c6_balance_cumsum_and_frame :
    ∀ t : CleanTable,
      (addBalanceStep t).amounts = t.amounts ∧
      (addBalanceStep t).balances.length = t.amounts.length ∧
      ∀ i, i < t.amounts.length →
        (addBalanceStep t).balances.getD i 0 =
          round2q (((t.amounts.take (i + 1)).map (fun a => a.getD 0)).sum) := by
  intro t
  refine ⟨rfl, ?_, ?_⟩
  · show (computeBalance t.amounts).length = t.amounts.length
    unfold computeBalance
    rw [List.length_map, cumSums_length, List.length_map]
  · intro i hi
    show (computeBalance t.amounts).getD i 0 = _
    unfold computeBalance
    have hlen : i < (cumSums 0 (t.amounts.map (fun a => a.getD 0))).length := by
      rw [cumSums_length, List.length_map]; exact hi
    rw [getD_map_of_lt round2q _ i hlen 0 0,
        cumSums_getD _ 0 i (by rw [List.length_map]; exact hi), zero_add,
        ← List.map_take]

/-- Witness for C6 at a concrete table: row 2 of the balance column is the
rounded sum of the first three amounts (the absent one counting as 0). -/
theorem c6_witness :
    (addBalanceStep (CleanTable.mk [some 10, some (-5), none, some 20] [])).balances.getD 2 0 =
      round2q ((([some 10, some (-5), none, some 20].take 3).map
        (fun a => a.getD (0 : ℚ))).sum) :=
  (c6_balance_cumsum_and_frame (CleanTable.mk [some 10, some (-5), none, some 20] [])).2.2
    2 (by decide)

/-! ### Claim C5 -/

theorem varAbs_nonneg (xs : List (Option ℚ)) : 0 ≤ varAbs xs := by
  unfold varAbs
  apply div_nonneg
  · apply List.sum_nonneg
    intro a ha
    rcases List.mem_map.mp ha with ⟨b, _, rfl⟩
    positivity
  · positivity

/-- The decidable squared comparison used in `anomalyFlags` is exactly the
source's `t > mean + 3 * sqrt v` over the reals. -/
theorem threshold_iff (t mean v : ℚ) (hv : 0 ≤ v) :
    (0 < t - mean ∧ 9 * v < (t - mean) ^ 2) ↔
      ((mean : ℝ) + 3 * Real.sqrt ((v : ℚ) : ℝ) < ((t : ℚ) : ℝ)) := by
  have hs : (0 : ℝ) ≤ Real.sqrt ((v : ℚ) : ℝ) := Real.sqrt_nonneg _
  have hsq : (3 * Real.sqrt ((v : ℚ) : ℝ)) ^ 2 = 9 * ((v : ℚ) : ℝ) := by
    rw [mul_pow, Real.sq_sqrt (by exact_mod_cast hv)]
    norm_num
  constructor
  · rintro ⟨h1, h2⟩
    have h1r : (0 : ℝ) < ((t : ℚ) : ℝ) - ((mean : ℚ) : ℝ) := by exact_mod_cast h1
    have h2r : (9 : ℝ) * ((v : ℚ) : ℝ) < (((t : ℚ) : ℝ) - ((mean : ℚ) : ℝ)) ^ 2 := by
      exact_mod_cast h2
    have hlt : 3 * Real.sqrt ((v : ℚ) : ℝ) < ((t : ℚ) : ℝ) - ((mean : ℚ) : ℝ) := by
      apply lt_of_pow_lt_pow_left₀ 2 (le_of_lt h1r)
      rw [hsq]
      exact h2r
    linarith
  · intro h
    have hlt : 3 * Real.sqrt ((v : ℚ) : ℝ) < ((t : ℚ) : ℝ) - ((mean : ℚ) : ℝ) := by linarith
    have h1r : (0 : ℝ) < ((t : ℚ) : ℝ) - ((mean : ℚ) : ℝ) := lt_of_le_of_lt (by positivity) hlt
    have h2r : (3 * Real.sqrt ((v : ℚ) : ℝ)) ^ 2 < (((t : ℚ) : ℝ) - ((mean : ℚ) : ℝ)) ^ 2 :=
      pow_lt_pow_left₀ hlt (by positivity) (by norm_num)
    rw [hsq] at h2r
    constructor
    · exact_mod_cast h1r
    · exact_mod_cast h2r

/-- C5: when at least one amount is present, row `i` is flagged iff its
amount is present and its absolute value strictly exceeds
`mean + 3 * stddev` (population standard deviation, `ddof=0`) of the
absolute values of the present amounts; rows with absent amounts are never
flagged; with no present amount no row is flagged. -/
theorem c5_anomaly_rule :
    ∀ xs : List (Option ℚ),
      (anomalyFlags xs).length = xs.length ∧
      (absPresent xs = [] → ∀ i, (anomalyFlags xs).getD i false = false) ∧
      (∀ i, xs.getD i none = none → (anomalyFlags xs).getD i false = false) ∧
      (absPresent xs ≠ [] → ∀ i, i < xs.length →
        ((anomalyFlags xs).getD i false = true ↔
          ∃ v, xs.getD i none = some v ∧
            ((meanAbs xs : ℚ) : ℝ) + 3 * Real.sqrt ((varAbs xs : ℚ) : ℝ) < ((|v| : ℚ) : ℝ))) := by
  intro xs
  refine ⟨?_, ?_, ?_, ?_⟩
  · unfold anomalyFlags
    split
    · rw [List.length_map]
    · rw [List.length_map]
  · intro h i
    unfold anomalyFlags
    rw [if_pos h]
    exact getD_const_false xs i
  · intro i hx
    unfold anomalyFlags
    split
    · exact getD_const_false xs i
    · by_cases hi : i < xs.length
      · rw [getD_map_of_lt _ xs i hi none false, hx]
      · rw [List.getD_eq_default _ _ (by rw [List.length_map]; omega)]
  · intro hne i hi
    unfold anomalyFlags
    rw [if_neg hne, getD_map_of_lt _ xs i hi none false]
    cases hx : xs.getD i none with
    | none => simp
    | some v =>
      simp only [Option.some.injEq]
      constructor
      · intro hflag
        refine ⟨v, rfl, ?_⟩
        have := (Bool.and_eq_true _ _).mp hflag
        exact (threshold_iff (|v|) (meanAbs xs) (varAbs xs) (varAbs_nonneg xs)).mp
          ⟨of_decide_eq_true this.1, of_decide_eq_true this.2⟩
      · rintro ⟨v', hv', hlt⟩
        have hvv : v = v' := by simpa using hv'
        subst hvv
        have := (threshold_iff (|v|) (meanAbs xs) (varAbs xs) (varAbs_nonneg xs)).mpr hlt
        exact (Bool.and_eq_true _ _).mpr ⟨decide_eq_true this.1, decide_eq_true this.2⟩

/-- Witness for C5: on `anomalyExample` the last row's flag obeys the
`mean + 3*stddev` rule, and the 1000 is indeed flagged. -/
theorem c5_witness :
    ((anomalyFlags anomalyExample).getD 10 false = true ↔
      ∃ v, anomalyExample.getD 10 none = some v ∧
        ((meanAbs anomalyExample : ℚ) : ℝ) +
          3 * Real.sqrt ((varAbs anomalyExample : ℚ) : ℝ) < ((|v| : ℚ) : ℝ)) ∧
    (anomalyFlags anomalyExample).getD 10 false = true := by
  have hiff := (c5_anomaly_rule anomalyExample).2.2.2 (by decide) 10 (by decide)
  refine ⟨hiff, ?_⟩
  have habs1000 : |(1000 : ℚ)| = 1000 := abs_of_pos (by norm_num)
  have hdec : 0 < |(1000 : ℚ)| - meanAbs anomalyExample ∧
      9 * varAbs anomalyExample < (|(1000 : ℚ)| - meanAbs anomalyExample) ^ 2 := by
    constructor <;>
      norm_num [meanAbs, varAbs, absPresent, anomalyExample, abs_one, habs1000,
        List.filterMap_cons, List.filterMap_nil, id_eq, List.map_cons, List.map_nil,
        List.sum_cons, List.sum_nil, List.length_cons, Function.comp]
  have hsqrt := (threshold_iff (|(1000 : ℚ)|) (meanAbs anomalyExample)
      (varAbs anomalyExample) (varAbs_nonneg anomalyExample)).mp hdec
  exact hiff.mpr ⟨1000, rfl, hsqrt⟩

/-! ### Claim C2 -/

theorem countP_and_split {α : Type} (l : List α) (p q : α → Bool) :
    l.countP p = l.countP (fun a => p a && q a) + l.countP (fun a => p a && !q a) := by
  induction l with
  | nil => rfl
  | cons a l ih =>
    simp only [List.countP_cons, ih]
    cases hp : p a <;> cases hq : q a <;> simp [hp, hq] <;> omega

/-- Counting a partition: when every element of `l` satisfying `q` has its
key in the duplicate-free list `ks`, the per-key counts sum to the total. -/
theorem sum_countP_partition {α K : Type} [DecidableEq K] (key : α → K) :
    ∀ (ks : List K) (q : α → Bool) (l : List α), ks.Nodup →
      (∀ a ∈ l, q a = true → key a ∈ ks) →
      (ks.map (fun k => l.countP (fun a => q a && decide (key a = k)))).sum = l.countP q := by
  intro ks
  induction ks with
  | nil =>
    intro q l _ hcov
    simp only [List.map_nil, List.sum_nil]
    symm
    rw [List.countP_eq_zero]
    intro a ha hq
    exact absurd (hcov a ha hq) (List.not_mem_nil _)
  | cons k ks ih =>
    intro q l hnd hcov
    simp only [List.map_cons, List.sum_cons]
    have hk_not_mem : k ∉ ks := (List.nodup_cons.mp hnd).1
    have hks_nd : ks.Nodup := (List.nodup_cons.mp hnd).2
    have htail : ∀ k' ∈ ks,
        l.countP (fun a => q a && decide (key a = k')) =
        l.countP (fun a => (q a && !decide (key a = k)) && decide (key a = k')) := by
      intro k' hk'
      apply List.countP_congr
      intro x _
      constructor
      · intro hx
        have h1 := (Bool.and_eq_true _ _).mp hx
        have hkey : key x = k' := of_decide_eq_true h1.2
        have hne : decide (key x = k) = false := by
          apply decide_eq_false
          intro hceq
          exact hk_not_mem ((hceq.symm.trans hkey) ▸ hk')
        simp [h1.1, h1.2, hne]
      · intro hx
        have h1 := (Bool.and_eq_true _ _).mp hx
        have h2 := (Bool.and_eq_true _ _).mp h1.1
        simp [h2.1, h1.2]
    rw [List.map_congr_left htail]
    rw [ih (fun a => q a && !decide (key a = k)) l hks_nd ?_]
    · exact (countP_and_split l q (fun a => decide (key a = k))).symm
    · intro a ha hx
      have h1 := (Bool.and_eq_true _ _).mp hx
      have hne : key a ≠ k :=
        of_decide_eq_false ((Bool.not_eq_true' _).mp h1.2)
      rcases List.mem_cons.mp (hcov a ha h1.1) with hh | hh
      · exact absurd hh hne
      · exact hh

/-- Counterexample to C2: a table with two present-date records, one of them
with an absent amount (reachable: with fewer than two present amounts the
interpolation stage leaves absent amounts absent).  `monthly_summary` counts
only one transaction, but two records have a present date. -/
theorem c2_counterexample :
    ((monthlySummary
        [Row.mk (some (Date.mk 2024 1 1)) "x" none ("Unspecified"),
         Row.mk (some (Date.mk 2024 1 2)) "x" (some 5) "Unspecified"]).map
      (fun r => r.transactions)).sum = 1 ∧
    ([Row.mk (some (Date.mk 2024 1 1)) "x" none ("Unspecified"),
      Row.mk (some (Date.mk 2024 1 2)) "x" (some 5) "Unspecified"].filter
      (fun r => r.date.isSome)).length = 2 := by
  constructor
  · rfl
  · rfl

/-- C2 amended: the monthly transaction counts sum to the number of records
whose date is present AND whose amount is present (pandas
`('Amount', 'count')` counts non-null amounts, not rows). -/
theorem c2_amended_transaction_count_sum :
    ∀ rows : List Row,
      ((monthlySummary rows).map (fun r => r.transactions)).sum =
        (rows.filter (fun r => r.date.isSome && r.amount.isSome)).length := by
  intro rows
  unfold monthlySummary
  simp only [List.map_map]
  have h1 : ∀ mo : Nat × Nat,
      (((rows.filter (fun r => r.date.isSome)).filter
          (fun r => decide (monthOf r = mo))).filter (fun r => r.amount.isSome)).length =
      (rows.filter (fun r => r.date.isSome)).countP
        (fun r => r.amount.isSome && decide (monthOf r = mo)) := by
    intro mo
    rw [← List.countP_eq_length_filter, List.countP_filter]
  have hperm := List.perm_insertionSort monthLE
    (((rows.filter (fun r => r.date.isSome)).map monthOf).dedup)
  have hnd : ((((rows.filter (fun r => r.date.isSome)).map monthOf).dedup).insertionSort
      monthLE).Nodup :=
    (List.Perm.nodup_iff hperm).mpr (List.nodup_dedup _)
  have hcov : ∀ r ∈ rows.filter (fun r => r.date.isSome),
      (fun r : Row => r.amount.isSome) r = true →
      monthOf r ∈ (((rows.filter (fun r => r.date.isSome)).map monthOf).dedup).insertionSort
        monthLE := by
    intro r hr _
    exact (List.Perm.mem_iff hperm).mpr (List.mem_dedup.mpr (List.mem_map_of_mem monthOf hr))
  calc ((((((rows.filter (fun r => r.date.isSome)).map monthOf).dedup).insertionSort
        monthLE)).map (fun mo =>
          ((((rows.filter (fun r => r.date.isSome)).filter
            (fun r => decide (monthOf r = mo))).filter
            (fun r => r.amount.isSome)).length))).sum
      = (((((rows.filter (fun r => r.date.isSome)).map monthOf).dedup).insertionSort
          monthLE).map (fun mo =>
            (rows.filter (fun r => r.date.isSome)).countP
              (fun r => r.amount.isSome && decide (monthOf r = mo)))).sum := by
        rw [List.map_congr_left (fun mo _ => h1 mo)]
    _ = (rows.filter (fun r => r.date.isSome)).countP (fun r => r.amount.isSome) :=
        sum_countP_partition monthOf _ (fun r => r.amount.isSome) _ hnd hcov
    _ = (rows.filter (fun r => r.date.isSome && r.amount.isSome)).length := by
        rw [← List.countP_eq_length_filter, List.countP_filter]
        apply List.countP_congr
        intro r _
        cases hd : r.date.isSome <;> cases ha : r.amount.isSome <;> simp [hd, ha]

/-! ### Claim C4 -/

theorem lastPresentBefore_eq_none (xs : List (Option ℚ)) (i : Nat)
    (h : ∀ j, j < i → xs.getD j none = none) : lastPresentBefore xs i = none := by
  unfold lastPresentBefore
  have hnil : (List.range i).filterMap (fun j => (xs.getD j none).map (fun v => (j, v))) = [] := by
    rw [List.filterMap_eq_nil_iff]
    intro j hj
    rw [h j (List.mem_range.mp hj)]
    rfl
  rw [hnil]
  rfl

theorem lastPresentBefore_eq_some (xs : List (Option ℚ)) (i j : Nat) (vj : ℚ)
    (hj : j < i) (hv : xs.getD j none = some vj)
    (hbet : ∀ t, j < t → t < i → xs.getD t none = none) :
    lastPresentBefore xs i = some (j, vj) := by
  unfold lastPresentBefore
  have hi : i = (j + 1) + (i - j - 1) := by omega
  rw [hi, List.range_add, List.filterMap_append]
  have h2 : ((List.range (i - j - 1)).map (fun x => (j + 1) + x)).filterMap
      (fun t => (xs.getD t none).map (fun v => (t, v))) = [] := by
    rw [List.filterMap_eq_nil_iff]
    intro t ht
    rcases List.mem_map.mp ht with ⟨x, hx, rfl⟩
    rw [hbet _ (by omega) (by have := List.mem_range.mp hx; omega)]
    rfl
  rw [h2, List.append_nil, List.range_succ, List.filterMap_append]
  have h3 : ([j].filterMap (fun t => (xs.getD t none).map (fun v => (t, v)))) = [(j, vj)] := by
    simp only [List.filterMap_cons, List.filterMap_nil, hv, Option.map_some']
  rw [h3, List.getLast?_concat]

theorem firstPresentAfter_eq_none (xs : List (Option ℚ)) (i : Nat)
    (h : ∀ t, i < t → t < xs.length → xs.getD t none = none) :
    firstPresentAfter xs i = none := by
  unfold firstPresentAfter
  have hnil : (List.range xs.length).filterMap
      (fun j => if i < j then (xs.getD j none).map (fun v => (j, v)) else none) = [] := by
    rw [List.filterMap_eq_nil_iff]
    intro j hj
    by_cases hij : i < j
    · rw [if_pos hij, h j hij (List.mem_range.mp hj)]
      rfl
    · rw [if_neg hij]
  rw [hnil]
  rfl

theorem firstPresentAfter_eq_some (xs : List (Option ℚ)) (i k : Nat) (vk : ℚ)
    (hik : i < k) (hk : k < xs.length) (hv : xs.getD k none = some vk)
    (hbet : ∀ t, i < t → t < k → xs.getD t none = none) :
    firstPresentAfter xs i = some (k, vk) := by
  unfold firstPresentAfter
  have hlen : xs.length = k + (xs.length - k) := by omega
  rw [hlen, List.range_add, List.filterMap_append]
  have h2 : (List.range k).filterMap
      (fun j => if i < j then (xs.getD j none).map (fun v => (j, v)) else none) = [] := by
    rw [List.filterMap_eq_nil_iff]
    intro t ht
    have htk := List.mem_range.mp ht
    by_cases hit : i < t
    · rw [if_pos hit, hbet t hit htk]
      rfl
    · rw [if_neg hit]
  rw [h2, List.nil_append]
  have hm : xs.length - k = (xs.length - k - 1) + 1 := by omega
  rw [hm, List.range_succ_eq_map, List.map_cons, List.filterMap_cons]
  simp only [Nat.add_zero, if_pos hik, hv]
  rfl

theorem interpolate_getD_eq_interpAt (xs : List (Option ℚ)) (i : Nat) (hi : i < xs.length) :
    ((List.range xs.length).map (interpAt xs)).getD i none = interpAt xs i := by
  rw [getD_map_of_lt (interpAt xs) _ i (by rw [List.length_range]; exact hi) 0 none]
  congr 1
  rw [List.getD_eq_getElem?_getD, List.getElem?_range hi]
  rfl

theorem round2q_intdiv (n : ℤ) : round2q ((n : ℚ) / 100) = (n : ℚ) / 100 := by
  unfold round2q halfEvenRound
  have hx : ((n : ℚ) / 100) * 100 = (n : ℚ) := div_mul_cancel₀ _ (by norm_num)
  simp only [hx, Int.floor_intCast, sub_self]
  rw [if_pos (by norm_num)]

theorem round2q_fixed (q : ℚ) (n : ℤ) (hq : q = (n : ℚ) / 100) : round2q q = q := by
  rw [hq]
  exact round2q_intdiv n

/-- Counterexample to C4: with two present amounts (so the interpolation
stage runs), a leading absent amount is NOT replaced — pandas
`interpolate(method='linear')` only fills forward from the first present
value, so the absent amount at the start of the table stays absent. -/
theorem c4_counterexample :
    2 ≤ countPresent [none, some 1, some 2] ∧
    (interpolateAmounts [none, some 1, some 2]).getD 0 none = none := by
  constructor
  · decide
  · rfl

/-- C4 amended: when at least two amounts are present, a present amount is
kept (rounded), an interior absent amount is linearly interpolated between
its nearest present neighbours by row position and rounded to 2 decimals, an
absent amount after the last present one takes the last present value, but
an absent amount before the first present one REMAINS ABSENT; with fewer
than two present amounts the column is unchanged. -/
theorem c4_amended_interpolation :
    ∀ xs : List (Option ℚ),
      (countPresent xs < 2 → interpolateAmounts xs = xs) ∧
      (2 ≤ countPresent xs →
        (interpolateAmounts xs).length = xs.length ∧
        (∀ i v, i < xs.length → xs.getD i none = some v →
          (interpolateAmounts xs).getD i none = some (round2q v)) ∧
        (∀ i, i < xs.length → xs.getD i none = none →
          ((∀ j, j < i → xs.getD j none = none) →
            (interpolateAmounts xs).getD i none = none) ∧
          (∀ j vj, j < i → xs.getD j none = some vj →
            (∀ t, j < t → t < i → xs.getD t none = none) →
            ((∀ t, i < t → t < xs.length → xs.getD t none = none) →
              (interpolateAmounts xs).getD i none = some (round2q vj)) ∧
            (∀ k vk, i < k → k < xs.length → xs.getD k none = some vk →
              (∀ t, i < t → t < k → xs.getD t none = none) →
              (interpolateAmounts xs).getD i none =
                some (round2q (vj + (vk - vj) *
                  (((i : ℚ) - ((j : ℚ))) / (((k : ℚ)) - ((j : ℚ)))))))))) := by
  intro xs
  constructor
  · intro h
    unfold interpolateAmounts
    rw [if_neg (by omega)]
  · intro h2
    have hif : interpolateAmounts xs = (List.range xs.length).map (interpAt xs) := by
      unfold interpolateAmounts
      rw [if_pos h2]
    refine ⟨by rw [hif, List.length_map, List.length_range], ?_, ?_⟩
    · intro i v hi hv
      rw [hif, interpolate_getD_eq_interpAt xs i hi]
      unfold interpAt
      rw [hv]
    · intro i hi hnone
      constructor
      · intro hlead
        rw [hif, interpolate_getD_eq_interpAt xs i hi]
        unfold interpAt
        rw [hnone, lastPresentBefore_eq_none xs i hlead]
      · intro j vj hj hvj hbet
        have hlast := lastPresentBefore_eq_some xs i j vj hj hvj hbet
        constructor
        · intro htrail
          have hfirst := firstPresentAfter_eq_none xs i htrail
          rw [hif, interpolate_getD_eq_interpAt xs i hi]
          unfold interpAt
          rw [hnone, hlast, hfirst]
        · intro k vk hik hk hvk hbet2
          have hfirst := firstPresentAfter_eq_some xs i k vk hik hk hvk hbet2
          rw [hif, interpolate_getD_eq_interpAt xs i hi]
          unfold interpAt
          rw [hnone, hlast, hfirst]

/-- Witness for C4 on `[10, absent, 20, absent]`: the interior absent
amount becomes 15 (linear between 10 and 20) and the trailing absent amount
becomes 20 (last present value). -/
theorem c4_witness :
    (interpolateAmounts [some 10, none, some 20, none]).getD 1 none = some 15 ∧
    (interpolateAmounts [some 10, none, some 20, none]).getD 3 none = some 20 := by
  have hmain := (c4_amended_interpolation [some 10, none, some 20, none]).2 (by decide)
  have h15 : round2q (15 : ℚ) = 15 := round2q_fixed 15 1500 (by norm_num)
  have h20 : round2q (20 : ℚ) = 20 := round2q_fixed 20 2000 (by norm_num)
  constructor
  · have h := ((hmain.2.2 1 (by decide) (by decide)).2 0 10 (by decide) (by decide)
      (by intro t h1 h2; omega)).2 2 20 (by decide) (by decide) (by decide)
      (by intro t h1 h2; omega)
    rw [h]
    have harith : (10 : ℚ) + (20 - 10) * ((((1 : Nat) : ℚ) - ((0 : Nat) : ℚ)) /
        (((2 : Nat) : ℚ) - ((0 : Nat) : ℚ))) = 15 := by
      push_cast
      norm_num
    rw [harith, h15]
  · have h := ((hmain.2.2 3 (by decide) (by decide)).2 2 20 (by decide) (by decide)
      (by intro t h1 h2; omega)).1 (by intro t h1 h2; simp at h2; omega)
    rw [h, h20]

/-! ### Claim C8: digit and rendering lemmas -/

theorem digitCharFacts (d : Nat) (hd : d < 10) :
    (Char.ofNat (48 + d)).isDigit = true ∧
    isPySpace (Char.ofNat (48 + d)) = false ∧
    Char.ofNat (48 + d) ≠ '.' ∧
    Char.ofNat (48 + d) ≠ '-' ∧
    (Char.ofNat (48 + d)).toNat - 48 = d ∧
    allowedAmtChar (Char.ofNat (48 + d)) = true := by
  interval_cases d <;> decide

theorem natDigitChars_mem (n : Nat) :
    ∀ c ∈ natDigitChars n, ∃ d, d < 10 ∧ c = Char.ofNat (48 + d) := by
  intro c hc
  unfold natDigitChars at hc
  split at hc
  · rw [List.mem_singleton] at hc
    exact ⟨0, by norm_num, by rw [hc]⟩
  · rcases List.mem_map.mp hc with ⟨d, hd, rfl⟩
    exact ⟨d, Nat.digits_lt_base (by norm_num) (List.mem_reverse.mp hd), rfl⟩

theorem natDigitChars_ne_nil (n : Nat) : natDigitChars n ≠ [] := by
  unfold natDigitChars
  split
  · simp
  · rename_i h
    intro hnil
    simp only [List.map_eq_nil_iff, List.reverse_eq_nil_iff] at hnil
    exact (Nat.digits_ne_nil_iff_ne_zero.mpr h) hnil

theorem fracChars_mem (fr : Nat) (hfr : fr < 100) :
    ∀ c ∈ fracChars fr, ∃ d, d < 10 ∧ c = Char.ofNat (48 + d) := by
  intro c hc
  unfold fracChars at hc
  split at hc
  · rw [List.mem_singleton] at hc
    exact ⟨0, by norm_num, by rw [hc]⟩
  · split at hc
    · rw [List.mem_singleton] at hc
      exact ⟨fr / 10, by omega, hc⟩
    · rcases List.mem_cons.mp hc with h | h
      · exact ⟨fr / 10, by omega, h⟩
      · rw [List.mem_singleton] at h
        exact ⟨fr % 10, by omega, h⟩

theorem digitsToNat_append (l1 l2 : List Char) :
    digitsToNat (l1 ++ l2) = l2.foldl (fun acc c => 10 * acc + (c.toNat - 48)) (digitsToNat l1) := by
  unfold digitsToNat
  rw [List.foldl_append]

theorem digitsToNat_ofDigits (D : List Nat) (hD : ∀ d ∈ D, d < 10) :
    digitsToNat (D.reverse.map (fun d => Char.ofNat (48 + d))) = Nat.ofDigits 10 D := by
  induction D with
  | nil => rfl
  | cons d D ih =>
    rw [List.reverse_cons, List.map_append, digitsToNat_append]
    have hval : (Char.ofNat (48 + d)).toNat - 48 = d :=
      (digitCharFacts d (hD d (List.mem_cons_self d D))).2.2.2.2.1
    show 10 * digitsToNat (D.reverse.map (fun d => Char.ofNat (48 + d))) +
      ((Char.ofNat (48 + d)).toNat - 48) = Nat.ofDigits 10 (d :: D)
    rw [hval, ih (fun x hx => hD x (List.mem_cons_of_mem d hx)), Nat.ofDigits_cons]
    omega

theorem digitsToNat_natDigitChars (n : Nat) : digitsToNat (natDigitChars n) = n := by
  unfold natDigitChars
  split
  · rename_i h
    rw [h]
    decide
  · rw [digitsToNat_ofDigits _ (fun d hd => Nat.digits_lt_base (by norm_num) hd),
      Nat.ofDigits_digits]

theorem digitsToNat_single (a : Nat) (ha : a < 10) : digitsToNat [Char.ofNat (48 + a)] = a := by
  show 10 * 0 + ((Char.ofNat (48 + a)).toNat - 48) = a
  rw [(digitCharFacts a ha).2.2.2.2.1]
  omega

theorem digitsToNat_pair (a b : Nat) (ha : a < 10) (hb : b < 10) :
    digitsToNat [Char.ofNat (48 + a), Char.ofNat (48 + b)] = 10 * a + b := by
  show 10 * (10 * 0 + ((Char.ofNat (48 + a)).toNat - 48)) + ((Char.ofNat (48 + b)).toNat - 48) =
    10 * a + b
  rw [(digitCharFacts a ha).2.2.2.2.1, (digitCharFacts b hb).2.2.2.2.1]
  omega

theorem takeWhile_append_of_all {p : Char → Bool} (l r : List Char)
    (hl : ∀ c ∈ l, p c = true) : (l ++ r).takeWhile p = l ++ r.takeWhile p := by
  induction l with
  | nil => rfl
  | cons c cs ih =>
    rw [List.cons_append, List.takeWhile_cons_of_pos (hl c (List.mem_cons_self c cs)),
      ih (fun x hx => hl x (List.mem_cons_of_mem c hx)), List.cons_append]

theorem dropWhile_append_of_all {p : Char → Bool} (l r : List Char)
    (hl : ∀ c ∈ l, p c = true) : (l ++ r).dropWhile p = r.dropWhile p := by
  induction l with
  | nil => rfl
  | cons c cs ih =>
    rw [List.cons_append, List.dropWhile_cons_of_pos (hl c (List.mem_cons_self c cs)),
      ih (fun x hx => hl x (List.mem_cons_of_mem c hx))]

theorem collapseDotsAux_no_dot (l : List Char) (hl : ∀ c ∈ l, c ≠ '.') :
    ∀ b, collapseDotsAux b l = l := by
  induction l with
  | nil => intro b; rfl
  | cons c cs ih =>
    intro b
    unfold collapseDotsAux
    rw [if_neg (hl c (List.mem_cons_self c cs)),
      ih (fun x hx => hl x (List.mem_cons_of_mem c hx)) false]

theorem collapseDotsAux_cons (b : Bool) (c : Char) (cs : List Char) :
    collapseDotsAux b (c :: cs) =
      if c = '.' then
        (if b then collapseDotsAux true cs else '.' :: collapseDotsAux true cs)
      else c :: collapseDotsAux false cs := rfl

theorem collapseDotsAux_append_no_dot (l : List Char) :
    ∀ r : List Char, (∀ c ∈ l, c ≠ '.') → l ≠ [] → ∀ b,
      collapseDotsAux b (l ++ r) = l ++ collapseDotsAux false r := by
  induction l with
  | nil => intro r _ hne; exact absurd rfl hne
  | cons c cs ih =>
    intro r hl _ b
    rw [List.cons_append, collapseDotsAux_cons, if_neg (hl c (List.mem_cons_self c cs))]
    by_cases hcs : cs = []
    · subst hcs
      rfl
    · rw [ih r (fun x hx => hl x (List.mem_cons_of_mem c hx)) hcs false, List.cons_append]

theorem collapseDots_dot_cons (fp : List Char) :
    collapseDotsAux false ('.' :: fp) = '.' :: collapseDotsAux true fp := by
  rw [collapseDotsAux_cons, if_pos rfl]
  simp

theorem parseUnsigned_render (x fr : Nat) (hfr : fr < 100) :
    parseUnsigned (natDigitChars x ++ '.' :: fracChars fr) =
      some ((x : ℚ) + (fr : ℚ) / 100) := by
  have hip := natDigitChars_mem x
  have hfp := fracChars_mem fr hfr
  have hcond : ((natDigitChars x ++ '.' :: fracChars fr).all fun c => c.isDigit || c == '.') = true := by
    rw [List.all_eq_true]
    intro c hc
    rcases List.mem_append.mp hc with h | h
    · rcases hip c h with ⟨d, hd, rfl⟩
      simp [(digitCharFacts d hd).1]
    · rcases List.mem_cons.mp h with rfl | h2
      · simp
      · rcases hfp c h2 with ⟨d, hd, rfl⟩
        simp [(digitCharFacts d hd).1]
  have hcount : (natDigitChars x ++ '.' :: fracChars fr).count '.' = 1 := by
    rw [List.count_append]
    have h1 : (natDigitChars x).count '.' = 0 := by
      rw [List.count_eq_zero]
      intro hmem
      rcases hip _ hmem with ⟨d, hd, heq⟩
      exact (digitCharFacts d hd).2.2.1 heq.symm
    have h2 : (fracChars fr).count '.' = 0 := by
      rw [List.count_eq_zero]
      intro hmem
      rcases hfp _ hmem with ⟨d, hd, heq⟩
      exact (digitCharFacts d hd).2.2.1 heq.symm
    rw [h1, List.count_cons_self, h2]
  have hdig : 1 ≤ (natDigitChars x ++ '.' :: fracChars fr).countP (fun c => c.isDigit) := by
    rcases hex : natDigitChars x with _ | ⟨c, cs⟩
    · exact absurd hex (natDigitChars_ne_nil x)
    · have hcdig : c.isDigit = true := by
        have hmem : c ∈ natDigitChars x := by
          rw [hex]
          exact List.mem_cons_self c cs
        rcases hip c hmem with ⟨d, hd, rfl⟩
        exact (digitCharFacts d hd).1
      rw [List.cons_append, List.countP_cons]
      simp [hcdig]
  have hnodotip : ∀ c ∈ natDigitChars x, (c != '.') = true := by
    intro c hc
    rcases hip c hc with ⟨d, hd, rfl⟩
    simpa using (digitCharFacts d hd).2.2.1
  have htake : (natDigitChars x ++ '.' :: fracChars fr).takeWhile (fun c => c != '.') =
      natDigitChars x := by
    rw [takeWhile_append_of_all _ _ hnodotip, List.takeWhile_cons_of_neg (by simp), List.append_nil]
  have hdrop : ((natDigitChars x ++ '.' :: fracChars fr).dropWhile (fun c => c != '.')).drop 1 =
      fracChars fr := by
    rw [dropWhile_append_of_all _ _ hnodotip, List.dropWhile_cons_of_neg (by simp)]
    rfl
  have hall : (((natDigitChars x ++ '.' :: fracChars fr).all fun c => c.isDigit || c == '.') &&
      decide ((natDigitChars x ++ '.' :: fracChars fr).count '.' ≤ 1) &&
      decide (1 ≤ (natDigitChars x ++ '.' :: fracChars fr).countP fun c => c.isDigit)) = true := by
    rw [hcond, hcount, decide_eq_true hdig]
    decide
  unfold parseUnsigned
  rw [if_pos hall, htake, hdrop, digitsToNat_natDigitChars]
  congr 1
  congr 1
  unfold fracChars
  split
  · rename_i h0
    rw [h0]
    norm_num
    decide
  · split
    · rename_i h0 h10
      rw [digitsToNat_single (fr / 10) (by omega)]
      have hfr10 : (fr : ℚ) = 10 * ((fr / 10 : ℕ) : ℚ) := by
        have h := Nat.div_add_mod fr 10
        rw [h10, Nat.add_zero] at h
        exact_mod_cast h.symm
      rw [hfr10]
      rw [List.length_singleton, pow_one]
      ring
    · rename_i h0 h10
      rw [digitsToNat_pair (fr / 10) (fr % 10) (by omega) (by omega)]
      have hfr' : 10 * (fr / 10) + fr % 10 = fr := by omega
      rw [hfr']
      norm_num

theorem cleanAmountStr_render (n : ℤ) (hn : n.natAbs < 10 ^ 18) :
    cleanAmountStr (renderFloat2 ((n : ℚ) / 100)) = some (PyFloat.finite ((n : ℚ) / 100)) := by
  have hfl : ⌊((n : ℚ) / 100) * 100⌋ = n := by
    rw [div_mul_cancel₀ _ (by norm_num : (100 : ℚ) ≠ 0), Int.floor_intCast]
  have hfrlt : n.natAbs % 100 < 100 := Nat.mod_lt _ (by norm_num)
  have hip := natDigitChars_mem (n.natAbs / 100)
  have hfp := fracChars_mem (n.natAbs % 100) hfrlt
  have hrender : renderFloat2 ((n : ℚ) / 100) =
      String.mk ((if n < 0 then ['-'] else []) ++
        natDigitChars (n.natAbs / 100) ++ '.' :: fracChars (n.natAbs % 100)) := by
    unfold renderFloat2
    rw [hfl]
  have hsignfacts : ∀ c ∈ (if n < 0 then ['-'] else ([] : List Char)),
      allowedAmtChar c = true ∧ isPySpace c = false ∧ c ≠ '.' := by
    intro c hc
    split at hc
    · rw [List.mem_singleton] at hc
      rw [hc]
      exact ⟨by decide, by decide, by decide⟩
    · exact absurd hc (List.not_mem_nil c)
  have hipfacts : ∀ c ∈ natDigitChars (n.natAbs / 100),
      allowedAmtChar c = true ∧ isPySpace c = false ∧ c ≠ '.' ∧ c ≠ '-' := by
    intro c hc
    rcases hip c hc with ⟨d, hd, rfl⟩
    exact ⟨(digitCharFacts d hd).2.2.2.2.2, (digitCharFacts d hd).2.1,
      (digitCharFacts d hd).2.2.1, (digitCharFacts d hd).2.2.2.1⟩
  have hfpfacts : ∀ c ∈ fracChars (n.natAbs % 100),
      allowedAmtChar c = true ∧ isPySpace c = false ∧ c ≠ '.' ∧ c ≠ '-' := by
    intro c hc
    rcases hfp c hc with ⟨d, hd, rfl⟩
    exact ⟨(digitCharFacts d hd).2.2.2.2.2, (digitCharFacts d hd).2.1,
      (digitCharFacts d hd).2.2.1, (digitCharFacts d hd).2.2.2.1⟩
  have hspace : ∀ c ∈ (if n < 0 then ['-'] else ([] : List Char)) ++
      natDigitChars (n.natAbs / 100) ++ '.' :: fracChars (n.natAbs % 100),
      isPySpace c = false := by
    intro c hc
    rcases List.mem_append.mp hc with h | h
    · rcases List.mem_append.mp h with h2 | h2
      · exact (hsignfacts c h2).2.1
      · exact (hipfacts c h2).2.1
    · rcases List.mem_cons.mp h with rfl | h3
      · decide
      · exact (hfpfacts c h3).2.1
  have hallowed : ∀ c ∈ (if n < 0 then ['-'] else ([] : List Char)) ++
      natDigitChars (n.natAbs / 100) ++ '.' :: fracChars (n.natAbs % 100),
      allowedAmtChar c = true := by
    intro c hc
    rcases List.mem_append.mp hc with h | h
    · rcases List.mem_append.mp h with h2 | h2
      · exact (hsignfacts c h2).1
      · exact (hipfacts c h2).1
    · rcases List.mem_cons.mp h with rfl | h3
      · decide
      · exact (hfpfacts c h3).1
  rw [hrender]
  unfold cleanAmountStr
  rw [if_neg ?hne]
  case hne =>
    unfold pyStrip
    rw [show (String.mk ((if n < 0 then ['-'] else []) ++
        natDigitChars (n.natAbs / 100) ++ '.' :: fracChars (n.natAbs % 100))).data =
        (if n < 0 then ['-'] else []) ++
        natDigitChars (n.natAbs / 100) ++ '.' :: fracChars (n.natAbs % 100) from rfl,
      pyStripList_eq_self _ hspace]
    intro hcontr
    have hdat := congrArg String.data hcontr
    simp at hdat
  rw [show (String.mk ((if n < 0 then ['-'] else []) ++
      natDigitChars (n.natAbs / 100) ++ '.' :: fracChars (n.natAbs % 100))).data =
      (if n < 0 then ['-'] else []) ++
      natDigitChars (n.natAbs / 100) ++ '.' :: fracChars (n.natAbs % 100) from rfl]
  rw [List.filter_eq_self.mpr hallowed]
  have hnodotpre : ∀ c ∈ (if n < 0 then ['-'] else ([] : List Char)) ++
      natDigitChars (n.natAbs / 100), c ≠ '.' := by
    intro c hc
    rcases List.mem_append.mp hc with h | h
    · exact (hsignfacts c h).2.2
    · exact (hipfacts c h).2.2.1
  have hprene : (if n < 0 then ['-'] else ([] : List Char)) ++
      natDigitChars (n.natAbs / 100) ≠ [] := by
    intro hcontr
    exact natDigitChars_ne_nil (n.natAbs / 100) (List.append_eq_nil.mp hcontr).2
  have hcollapse : collapseDotsAux false
      ((if n < 0 then ['-'] else []) ++
        natDigitChars (n.natAbs / 100) ++ '.' :: fracChars (n.natAbs % 100)) =
      (if n < 0 then ['-'] else []) ++
        natDigitChars (n.natAbs / 100) ++ '.' :: fracChars (n.natAbs % 100) := by
    rw [collapseDotsAux_append_no_dot _ _ hnodotpre hprene false,
      collapseDots_dot_cons,
      collapseDotsAux_no_dot _ (fun c hc => (hfpfacts c hc).2.2.1) true]
  rw [hcollapse]
  have hcountm : ((if n < 0 then ['-'] else ([] : List Char)) ++
      natDigitChars (n.natAbs / 100) ++ '.' :: fracChars (n.natAbs % 100)).count '-' ≤ 1 := by
    rw [List.count_append, List.count_append]
    have h1 : ((if n < 0 then ['-'] else ([] : List Char)).count '-') ≤ 1 := by
      split <;> simp
    have h2 : (natDigitChars (n.natAbs / 100)).count '-' = 0 := by
      rw [List.count_eq_zero]
      intro hmem
      exact (hipfacts _ hmem).2.2.2 rfl
    have h3 : ('.' :: fracChars (n.natAbs % 100)).count '-' = 0 := by
      rw [List.count_eq_zero]
      intro hmem
      rcases List.mem_cons.mp hmem with h | h
      · exact absurd h.symm (by decide)
      · exact (hfpfacts _ h).2.2.2 rfl
    omega
  have hfix : fixMinus ((if n < 0 then ['-'] else []) ++
      natDigitChars (n.natAbs / 100) ++ '.' :: fracChars (n.natAbs % 100)) =
      (if n < 0 then ['-'] else []) ++
        natDigitChars (n.natAbs / 100) ++ '.' :: fracChars (n.natAbs % 100) := by
    unfold fixMinus
    rw [if_neg (by omega)]
  rw [hfix]
  have hbody := parseUnsigned_render (n.natAbs / 100) (n.natAbs % 100) hfrlt
  have hvalabs : ((n.natAbs / 100 : ℕ) : ℚ) + ((n.natAbs % 100 : ℕ) : ℚ) / 100 =
      ((n.natAbs : ℕ) : ℚ) / 100 := by
    have h := Nat.div_add_mod n.natAbs 100
    have hcast : (100 : ℚ) * ((n.natAbs / 100 : ℕ) : ℚ) + ((n.natAbs % 100 : ℕ) : ℚ) =
        ((n.natAbs : ℕ) : ℚ) := by exact_mod_cast congrArg (fun t : ℕ => (t : ℚ)) h
    field_simp
    linarith
  have hVlt : ((n.natAbs / 100 : ℕ) : ℚ) + ((n.natAbs % 100 : ℕ) : ℚ) / 100 <
      dblOverflowBound := by
    rw [hvalabs]
    have h1 : ((n.natAbs : ℕ) : ℚ) < 10 ^ 18 := by exact_mod_cast hn
    have h2 : ((n.natAbs : ℕ) : ℚ) / 100 < 10 ^ 16 := by
      rw [div_lt_iff₀ (by norm_num : (0 : ℚ) < 100)]
      calc ((n.natAbs : ℕ) : ℚ) < 10 ^ 18 := h1
      _ = 10 ^ 16 * 100 := by norm_num
    calc ((n.natAbs : ℕ) : ℚ) / 100 < 10 ^ 16 := h2
    _ < (10 : ℚ) ^ 18 := by norm_num
    _ ≤ dblOverflowBound := dblOverflowBound_big
  by_cases hneg : n < 0
  · rw [if_pos hneg]
    have hhead : parsePyFloat ('-' :: (natDigitChars (n.natAbs / 100) ++
        '.' :: fracChars (n.natAbs % 100))) =
        (parseUnsigned (natDigitChars (n.natAbs / 100) ++
          '.' :: fracChars (n.natAbs % 100))).map (fun v =>
            if dblOverflowBound ≤ v then PyFloat.negInf else PyFloat.finite (-v)) := rfl
    rw [show (['-'] ++ natDigitChars (n.natAbs / 100) ++ '.' :: fracChars (n.natAbs % 100)) =
        ('-' :: (natDigitChars (n.natAbs / 100) ++ '.' :: fracChars (n.natAbs % 100))) from rfl]
    rw [hhead, hbody]
    simp only [Option.map_some']
    rw [if_neg (not_le.mpr hVlt)]
    simp only [roundPy2]
    have habs : ((n.natAbs : ℕ) : ℚ) = -(n : ℚ) := by
      rw [Int.cast_natAbs]
      exact_mod_cast abs_of_neg hneg
    rw [hvalabs, habs]
    rw [show -(-(n : ℚ) / 100) = (n : ℚ) / 100 by ring, round2q_intdiv]
  · rw [if_neg hneg]
    rw [List.nil_append]
    have hhead : parsePyFloat (natDigitChars (n.natAbs / 100) ++
        '.' :: fracChars (n.natAbs % 100)) =
        (parseUnsigned (natDigitChars (n.natAbs / 100) ++
          '.' :: fracChars (n.natAbs % 100))).map (fun v =>
            if dblOverflowBound ≤ v then PyFloat.posInf else PyFloat.finite v) := by
      unfold parsePyFloat
      rw [if_neg ?_]
      rcases hex : natDigitChars (n.natAbs / 100) with _ | ⟨c, cs⟩
      · exact absurd hex (natDigitChars_ne_nil _)
      · rw [List.cons_append]
        have hcne : c ≠ '-' := by
          have hmem : c ∈ natDigitChars (n.natAbs / 100) := by
            rw [hex]
            exact List.mem_cons_self c cs
          exact (hipfacts c hmem).2.2.2
        simp [hcne]
    rw [hhead, hbody]
    have habs : ((n.natAbs : ℕ) : ℚ) = (n : ℚ) := by
      rw [Int.cast_natAbs]
      exact_mod_cast abs_of_nonneg (not_lt.mp hneg)
    simp only [Option.map_some']
    rw [if_neg (not_le.mpr hVlt)]
    simp only [roundPy2]
    rw [hvalabs, habs, round2q_intdiv]

theorem cleanAmountStr_finite_two_decimal (s : String) (q : ℚ)
    (h : cleanAmountStr s = some (PyFloat.finite q)) : ∃ n : ℤ, q = (n : ℚ) / 100 := by
  rcases cleanAmountStr_cases s with h0 | ⟨n, hn⟩ | hp | hm
  · rw [h0] at h
    exact absurd h (by simp)
  · rw [hn] at h
    simp only [Option.some.injEq, PyFloat.finite.injEq] at h
    exact ⟨n, h.symm⟩
  · rw [hp] at h
    exact absurd h (by simp)
  · rw [hm] at h
    exact absurd h (by simp)

/-- Counterexample to C8: `clean_amount` is not idempotent.  The 17-digit
string `"10000000000000000"` cleans to the present number `1e16`, but
re-cleaning that number gives `116.0`: Python renders the float as the
scientific-notation string `"1e+16"`, the amount regex strips `e` and `+`
leaving `"116"`, and `float("116")` is `116.0 ≠ 1e16`. -/
theorem c8_counterexample :
    cleanAmount (RawAmount.str ("10000000000000000")) =
      some (PyFloat.finite ((10 : ℚ) ^ 16)) ∧
    cleanAmount (RawAmount.num (PyFloat.finite ((10 : ℚ) ^ 16))) =
      some (PyFloat.finite (116 : ℚ)) ∧
    PyFloat.finite ((10 : ℚ) ^ 16) ≠ PyFloat.finite (116 : ℚ) := by
  refine ⟨?_, ?_, ?_⟩
  · show cleanAmountStr ("10000000000000000") = some (PyFloat.finite ((10 : ℚ) ^ 16))
    unfold cleanAmountStr
    rw [if_neg (by decide)]
    have hchars : fixMinus (collapseDotsAux false
        (("10000000000000000" : String).data.filter allowedAmtChar)) =
        '1' :: List.replicate 16 '0' := rfl
    rw [hchars]
    have hhead : parsePyFloat ('1' :: List.replicate 16 '0') =
        (parseUnsigned ('1' :: List.replicate 16 '0')).map (fun v =>
          if dblOverflowBound ≤ v then PyFloat.posInf else PyFloat.finite v) := by
      unfold parsePyFloat
      rw [if_neg (by decide)]
    have hpu : parseUnsigned ('1' :: List.replicate 16 '0') =
        some (((10 ^ 16 : ℕ) : ℚ) + ((0 : ℕ) : ℚ) / (10 : ℚ) ^ (0 : ℕ)) := rfl
    rw [hhead, hpu]
    simp only [Option.map_some']
    rw [show (((10 ^ 16 : ℕ) : ℚ) + ((0 : ℕ) : ℚ) / (10 : ℚ) ^ (0 : ℕ)) =
        ((10 ^ 18 : ℤ) : ℚ) / 100 by push_cast; norm_num]
    rw [if_neg (not_le.mpr (lt_of_lt_of_le (by norm_num) dblOverflowBound_big))]
    simp only [roundPy2]
    rw [round2q_intdiv]
    norm_num
  · show cleanAmountStr (pyFloatStr (PyFloat.finite ((10 : ℚ) ^ 16))) =
      some (PyFloat.finite (116 : ℚ))
    have hsci : pyFloatStr (PyFloat.finite ((10 : ℚ) ^ 16)) = ("1e+16" : String) := by
      simp only [pyFloatStr]
      rw [if_neg (by rw [abs_of_nonneg (by positivity)]; exact lt_irrefl _)]
      rw [if_neg (by norm_num)]
      rw [show |(10 : ℚ) ^ 16| = ((10 ^ 16 : ℤ) : ℚ) by
        rw [abs_of_nonneg (by positivity)]; push_cast; ring]
      rw [Int.floor_intCast]
      rfl
    rw [hsci]
    unfold cleanAmountStr
    rw [if_neg (by decide)]
    have hchars : fixMinus (collapseDotsAux false
        (("1e+16" : String).data.filter allowedAmtChar)) = ['1', '1', '6'] := rfl
    rw [hchars]
    have hhead : parsePyFloat (['1', '1', '6']) =
        (parseUnsigned (['1', '1', '6'])).map (fun v =>
          if dblOverflowBound ≤ v then PyFloat.posInf else PyFloat.finite v) := by
      unfold parsePyFloat
      rw [if_neg (by decide)]
    have hpu : parseUnsigned (['1', '1', '6']) =
        some (((116 : ℕ) : ℚ) + ((0 : ℕ) : ℚ) / (10 : ℚ) ^ (0 : ℕ)) := rfl
    rw [hhead, hpu]
    simp only [Option.map_some']
    rw [show (((116 : ℕ) : ℚ) + ((0 : ℕ) : ℚ) / (10 : ℚ) ^ (0 : ℕ)) =
        ((11600 : ℤ) : ℚ) / 100 by push_cast; norm_num]
    rw [if_neg (not_le.mpr (lt_of_lt_of_le (by norm_num) dblOverflowBound_big))]
    simp only [roundPy2]
    rw [round2q_intdiv]
    norm_num
  · intro h
    rw [PyFloat.finite.injEq] at h
    norm_num at h

/-- C8 amended: `clean_amount` is idempotent on its finite results of
magnitude below 1e16 — whenever it returns a present finite number `q` with
`|q| < 10^16` (the regime where Python's `str` prints the float
positionally), feeding that number back through `clean_amount` (Python
stringifies the float and re-runs the pipeline) returns the same number.
At `|q| ≥ 1e16` the scientific-notation rendering is mangled by the amount
regex, and infinite results re-clean to absent, so idempotence fails
there. -/
theorem c8_amended_idempotent :
    ∀ (a : RawAmount) (q : ℚ), cleanAmount a = some (PyFloat.finite q) →
      |q| < 10 ^ 16 →
      cleanAmount (RawAmount.num (PyFloat.finite q)) = some (PyFloat.finite q) := by
  intro a q h hlt
  have hq : ∃ n : ℤ, q = (n : ℚ) / 100 := by
    cases a with
    | na => exact Option.noConfusion h
    | str s => exact cleanAmountStr_finite_two_decimal s q h
    | num p => exact cleanAmountStr_finite_two_decimal (pyFloatStr p) q h
  rcases hq with ⟨n, rfl⟩
  show cleanAmountStr (pyFloatStr (PyFloat.finite ((n : ℚ) / 100))) =
    some (PyFloat.finite ((n : ℚ) / 100))
  have hren : pyFloatStr (PyFloat.finite ((n : ℚ) / 100)) = renderFloat2 ((n : ℚ) / 100) := by
    simp only [pyFloatStr]
    rw [if_pos hlt]
  rw [hren]
  have hn : n.natAbs < 10 ^ 18 := by
    have h1 : |(n : ℚ)| / 100 < 10 ^ 16 := by
      have h0 := hlt
      rw [abs_div, show |(100 : ℚ)| = 100 from by norm_num] at h0
      exact h0
    have h2 : |(n : ℚ)| < 10 ^ 18 := by
      rw [div_lt_iff₀ (by norm_num : (0 : ℚ) < 100)] at h1
      calc |(n : ℚ)| < 10 ^ 16 * 100 := h1
      _ = 10 ^ 18 := by norm_num
    have h3 : ((n.natAbs : ℕ) : ℚ) < 10 ^ 18 := by
      rw [Int.cast_natAbs]
      exact_mod_cast h2
    exact_mod_cast h3
  exact cleanAmountStr_render n hn

/-- Witness for C8 (amended): `clean_amount("12.5") = 12.5`, this value has
magnitude below 1e16, and re-cleaning the number 12.5 returns 12.5 again. -/
theorem c8_witness :
    cleanAmount (RawAmount.num (PyFloat.finite ((25 : ℚ) / 2))) =
      some (PyFloat.finite ((25 : ℚ) / 2)) := by
  refine c8_amended_idempotent (RawAmount.str ("12.5")) ((25 : ℚ) / 2) ?_
    (by rw [abs_of_pos (by norm_num)]; norm_num)
  show cleanAmountStr ("12.5") = some (PyFloat.finite ((25 : ℚ) / 2))
  unfold cleanAmountStr
  rw [if_neg (by decide)]
  have hchars : fixMinus (collapseDotsAux false
      (("12.5" : String).data.filter allowedAmtChar)) = ['1', '2', '.', '5'] := rfl
  rw [hchars]
  have hhead : parsePyFloat (['1', '2', '.', '5']) =
      (parseUnsigned (['1', '2', '.', '5'])).map (fun v =>
        if dblOverflowBound ≤ v then PyFloat.posInf else PyFloat.finite v) := by
    unfold parsePyFloat
    rw [if_neg (by decide)]
  have hpu : parseUnsigned (['1', '2', '.', '5']) =
      some (((12 : ℕ) : ℚ) + ((5 : ℕ) : ℚ) / (10 : ℚ) ^ (1 : ℕ)) := rfl
  rw [hhead, hpu]
  simp only [Option.map_some']
  rw [show (((12 : ℕ) : ℚ) + ((5 : ℕ) : ℚ) / (10 : ℚ) ^ (1 : ℕ)) =
      ((1250 : ℤ) : ℚ) / 100 by push_cast; norm_num]
  rw [if_neg (not_le.mpr (lt_of_lt_of_le (by norm_num) dblOverflowBound_big))]
  simp only [roundPy2]
  rw [round2q_intdiv]
  norm_num

end BankCleanup
